import Mathlib

/-!
# Acquisition pipeline of the `sources` package

A shallow embedding of `sources/alt-http.go`, `sources/fedora-http.go` and
`sources/gentoo.go`: the three `Run` methods, the two `getLatestBuild`
resolvers and `fedora.unpackLayers`.

* Go `string`s are Lean `String`s; a Go function that returns `(v, error)` is a
  function from the state of the run to a result and a new state (`M`), and
  the state records every call to a collaborator, in order, with its answer.
* The collaborators that live outside the package (`DownloadHash`,
  `VerifyFile`, `shared.Unpack`, `http.Get`, the `os` and `filepath` calls that
  touch the disk, `url.Parse`, `json.Unmarshal`) are the fields of a `Sys`
  record, so a theorem stated for an arbitrary `Sys` holds whatever they
  answer.  For the content of the rootfs, `fsSys` is the world that is a file
  tree.
* A file path is held by the elements of its cleaned form (`Path`); the
  pure functions of `filepath` (`Clean`, `Dir`, `Join`) are written out.
* `regexp` is written out for the operators the two resolvers use, with the
  leftmost-first search of Go.  Logging is left out.
-/

set_option autoImplicit false

namespace Sources

/-! ## Go errors -/

/-- A Go `error` value.  `new msg` is `errors.New(msg)` (or an error handed back
by a collaborator); `errorf format args` is `fmt.Errorf(format, args...)` for a
format without `%w`; `wrapf format args err` is `fmt.Errorf(format, args..., err)`
for a format that ends in `%w`, `args` being the `%q`/`%s` arguments. -/
inductive GoError where
  | new (msg : String)
  | errorf (format : String) (args : List String)
  | wrapf (format : String) (args : List String) (wrapped : GoError)
  deriving DecidableEq, Repr

deriving instance DecidableEq for Except

/-! ## The `regexp` fragment used by the resolvers

Go's `regexp` is leftmost-first: a match starts as early as possible and, among
the matches starting there, is the one a backtracking search finds first. -/

/-- Regular expressions, restricted to the operators that occur in the
patterns of this package. -/
inductive Re where
  | lit (s : List Char)
  | any
  | digit
  | seq (a b : Re)
  | opt (a : Re)
  | star (a : Re)
  deriving Repr

/-- Greedy iteration: `f` gives the remainders after one round, tried in
order; each round must consume input, so `fuel = |s|` rounds suffice. -/
def Re.starAux (f : List Char → List (List Char)) : Nat → List Char → List (List Char)
  | 0, s => [s]
  | fuel + 1, s =>
    (((f s).filter (fun r => decide (r.length < s.length))).flatMap (Re.starAux f fuel)) ++ [s]

/-- The backtracking search: `run re s` lists, in the order a backtracking
matcher tries them, the remainders of `s` after a match of `re` anchored at the
start of `s`.  `.` does not match a newline, `\d` is `[0-9]`, `?` and `*` are
greedy. -/
def Re.run : Re → List Char → List (List Char)
  | .lit l, s => if l.isPrefixOf s then [s.drop l.length] else []
  | .any, s =>
    match s with
    | [] => []
    | c :: cs => if c = '\n' then [] else [cs]
  | .digit, s =>
    match s with
    | [] => []
    | c :: cs => if c.isDigit then [cs] else []
  | .seq a b, s => (Re.run a s).flatMap (Re.run b)
  | .opt a, s => Re.run a s ++ [s]
  | .star a, s => Re.starAux (Re.run a) s.length s

/-- The leftmost-first match of `re` anchored at the start of `s`: the text
left over after it. -/
def Re.matchAt (re : Re) (s : List Char) : Option (List Char) :=
  (re.run s).head?

/-- The scan of `(*Regexp).FindAllString(s, -1)`: successive non-overlapping
leftmost-first matches.  `afterMatch` tells that the previous match ended
exactly here, where an empty match is not accepted. -/
def findAllAux (re : Re) : Nat → Bool → List Char → List (List Char)
  | 0, _, _ => []
  | fuel + 1, afterMatch, s =>
    match re.matchAt s with
    | none =>
      match s with
      | [] => []
      | _ :: cs => findAllAux re fuel false cs
    | some rest =>
      if rest.length < s.length then
        s.take (s.length - rest.length) :: findAllAux re fuel true rest
      else
        match s with
        | [] => if afterMatch then [] else [[]]
        | _ :: cs =>
          if afterMatch then findAllAux re fuel false cs
          else [] :: findAllAux re fuel false cs

/-- The Go `re.FindAllString(s, -1)`. -/
def FindAllString (re : Re) (s : String) : List String :=
  (findAllAux re (s.length + 1) false s.data).map String.mk

/-! ## `strings`, `sort` and `filepath` -/

/-- Go's `a <= b` on strings: lexicographic on the code units. -/
def strLE : List Char → List Char → Bool
  | [], _ => true
  | _ :: _, [] => false
  | a :: as, b :: bs =>
    if a.toNat < b.toNat then true else if b.toNat < a.toNat then false else strLE as bs

/-- Go's `a <= b` for `string`s. -/
def goStringLE (a b : String) : Bool := strLE a.data b.data

/-- The Go `sort.Strings`. -/
def sortStrings (xs : List String) : List String :=
  xs.insertionSort (fun a b => goStringLE a b = true)

/-- The Go `strings.Trim(s, cutset)`. -/
def stringsTrim (s : String) (cutset : String) : String :=
  String.mk (((s.data.dropWhile (fun c => cutset.data.contains c)).reverse.dropWhile
    (fun c => cutset.data.contains c)).reverse)

/-- The Go `strings.HasPrefix(s, p)`. -/
def stringsHasPrefix (s p : String) : Bool := p.data.isPrefixOf s.data

/-- The Go `strings.HasSuffix(s, p)`. -/
def stringsHasSuffix (s p : String) : Bool := p.data.reverse.isPrefixOf s.data.reverse

/-- The Go `strings.Split(s, "/")` on the characters of `s`. -/
def splitSlash : List Char → List (List Char)
  | [] => [[]]
  | c :: cs =>
    match splitSlash cs with
    | [] => [[]]
    | w :: ws => if c = '/' then [] :: w :: ws else (c :: w) :: ws

/-- One path element of `filepath.Clean`, on the stack of the elements kept so
far (innermost first): empty and `.` elements vanish, `..` removes the element
before it, and where there is none it vanishes in a rooted path and stays in
a relative one. -/
def cleanStep (rooted : Bool) (stack : List String) (c : String) : List String :=
  if c = "" ∨ c = "." then stack
  else if c = ".." then
    match stack with
    | [] => if rooted then [] else [".."]
    | t :: rest => if t = ".." then ".." :: t :: rest else rest
  else c :: stack

/-- The elements of `s` after `filepath.Clean`, started from the elements `base`. -/
def cleanFrom (rooted : Bool) (base : List String) (s : String) : List String :=
  (((splitSlash s.data).map String.mk).foldl (cleanStep rooted) base.reverse).reverse

/-- The Go `filepath.Clean`. -/
def filepathClean (s : String) : String :=
  let rooted := stringsHasPrefix s "/"
  let comps := cleanFrom rooted [] s
  if rooted then "/" ++ "/".intercalate comps
  else if comps = [] then "." else "/".intercalate comps

/-- The Go `filepath.Dir`: `Clean` of everything up to and including the last
separator. -/
def filepathDir (s : String) : String :=
  filepathClean (String.mk (s.data.reverse.dropWhile (fun c => c ≠ '/')).reverse)

/-- A file path as the functions of this package handle it: absolute and
cleaned, given by its elements (`/var/cache/rootfs` is `["var", "cache", "rootfs"]`).
Every path the package touches is a `filepath.Join` onto `rootfsDir` or onto
the directory `DownloadHash` returns, and `Join` cleans its result. -/
abbrev Path := List String

/-- The Go `filepath.Join(p, elem)`, which is `Clean(p + "/" + elem)`. -/
def Path.Join (p : Path) (elem : String) : Path := cleanFrom true p elem

/-- The path as a Go string. -/
def Path.str (p : Path) : String := "/" ++ "/".intercalate p

/-! ## The definition and the collaborators -/

/-- The fields of `shared.DefinitionImage` read here. -/
structure DefinitionImage where
  Release : String
  ArchitectureMapped : String
  deriving DecidableEq, Repr

/-- The fields of `shared.DefinitionSource` read here. -/
structure DefinitionSource where
  URL : String
  Keys : List String
  Variant : String
  SkipVerification : Bool
  deriving DecidableEq, Repr

/-- The fields of `shared.Definition` read here. -/
structure Definition where
  Image : DefinitionImage
  Source : DefinitionSource
  deriving DecidableEq, Repr

/-- The struct `common` every backend embeds (the logger is left out). -/
structure common where
  definition : Definition
  rootfsDir : Path
  deriving DecidableEq, Repr

/-- The `hash.Hash` argument of `DownloadHash`. -/
inductive HashAlg where
  | sha256
  | sha512
  deriving DecidableEq, Repr

/-- One element of the manifest array of `unpackLayers`; a field absent from
the JSON text is left at its zero value by `json.Unmarshal`. -/
structure Manifest where
  Layers : List String
  Config : String
  deriving DecidableEq, Repr

/-- A call to a collaborator, with what it answered. -/
inductive Event where
  | httpGet (url : String) (res : Except GoError (Except GoError String))
  | downloadHash (file checksum : String) (hashFunc : Option HashAlg) (res : Except GoError Path)
  | verifyFile (signedFile : Path) (signatureFile : Option Path) (res : Except GoError Bool)
  | unpack (file dir : Path) (err : Option GoError)
  | readFile (name : Path) (res : Except GoError (Except GoError String))
  | glob (dir : Path) (res : Except GoError (List Path))
  | removeAll (path : Path) (err : Option GoError)
  | rename (oldpath newpath : Path) (err : Option GoError)
  deriving DecidableEq, Repr

/-- The world outside the package, over a state `σ` that each call may read
and change.  `parseURL` is `url.Parse` followed by `.Scheme`; `httpGet` is
`http.Get` and then `io.ReadAll` of the body (outer and inner result);
`readFile` is `os.Open` and then `io.ReadAll`; `glob dir` is
`filepath.Glob(filepath.Join(dir, "*"))` for a `dir` whose name holds no
pattern character; `verifyFile` takes `none` for the empty signature-file
name. -/
structure Sys (σ : Type) where
  parseURL : String → Except GoError String
  toLower : String → String
  jsonUnmarshal : String → Except GoError (List Manifest)
  httpGet : σ → String → Except GoError (Except GoError String) × σ
  downloadHash : σ → String → String → Option HashAlg → Except GoError Path × σ
  verifyFile : σ → Path → Option Path → Except GoError Bool × σ
  unpack : σ → Path → Path → Option GoError × σ
  readFile : σ → Path → Except GoError (Except GoError String) × σ
  glob : σ → Path → Except GoError (List Path) × σ
  removeAll : σ → Path → Option GoError × σ
  rename : σ → Path → Path → Option GoError × σ

/-- The state of a run: the world and the calls made so far, oldest first. -/
structure RunState (σ : Type) where
  world : σ
  trace : List Event
  deriving DecidableEq

/-- A Go function that returns `(α, error)`, run from a state. -/
def M (σ α : Type) : Type := RunState σ → Except GoError α × RunState σ

/-- The Go `return v, nil`. -/
def M.ret {σ α : Type} (a : α) : M σ α := fun st => (.ok a, st)

/-- The Go `return err`. -/
def M.fail {σ α : Type} (e : GoError) : M σ α := fun st => (.error e, st)

/-- Sequencing: the rest runs when the first part returned no error. -/
def M.andThen {σ α β : Type} (m : M σ α) (f : α → M σ β) : M σ β := fun st =>
  match m st with
  | (.ok a, st1) => f a st1
  | (.error e, st1) => (.error e, st1)

instance {σ : Type} : Monad (M σ) where
  pure := M.ret
  bind := M.andThen

/-- The Go `if err != nil { return wrap(err) }` after a call. -/
def M.onErr {σ α : Type} (m : M σ α) (wrap : GoError → GoError) : M σ α := fun st =>
  match m st with
  | (.ok a, st1) => (.ok a, st1)
  | (.error e, st1) => (.error (wrap e), st1)

/-- Lift an optional error to a result. -/
def errToExcept : Option GoError → Except GoError Unit
  | none => .ok ()
  | some e => .error e

variable {σ : Type}

/-- The call `http.Get(url)`; the value is what `io.ReadAll(resp.Body)` gives. -/
def Sys.Get (sys : Sys σ) (url : String) : M σ (Except GoError String) := fun st =>
  let r := sys.httpGet st.world url
  (r.1, ⟨r.2, st.trace ++ [.httpGet url r.1]⟩)

/-- The call `s.DownloadHash(s.definition.Image, file, checksum, hashFunc)`. -/
def Sys.DownloadHash (sys : Sys σ) (file checksum : String) (hashFunc : Option HashAlg) :
    M σ Path := fun st =>
  let r := sys.downloadHash st.world file checksum hashFunc
  (r.1, ⟨r.2, st.trace ++ [.downloadHash file checksum hashFunc r.1]⟩)

/-- The call `s.VerifyFile(signedFile, signatureFile)`. -/
def Sys.VerifyFile (sys : Sys σ) (signedFile : Path) (signatureFile : Option Path) :
    M σ Bool := fun st =>
  let r := sys.verifyFile st.world signedFile signatureFile
  (r.1, ⟨r.2, st.trace ++ [.verifyFile signedFile signatureFile r.1]⟩)

/-- The call `shared.Unpack(file, dir)`. -/
def Sys.Unpack (sys : Sys σ) (file dir : Path) : M σ Unit := fun st =>
  let r := sys.unpack st.world file dir
  (errToExcept r.1, ⟨r.2, st.trace ++ [.unpack file dir r.1]⟩)

/-- The calls `os.Open(name)` and `io.ReadAll(file)`; the value is what
`ReadAll` gives. -/
def Sys.Open (sys : Sys σ) (name : Path) : M σ (Except GoError String) := fun st =>
  let r := sys.readFile st.world name
  (r.1, ⟨r.2, st.trace ++ [.readFile name r.1]⟩)

/-- The call `filepath.Glob(filepath.Join(dir, "*"))`. -/
def Sys.Glob (sys : Sys σ) (dir : Path) : M σ (List Path) := fun st =>
  let r := sys.glob st.world dir
  (r.1, ⟨r.2, st.trace ++ [.glob dir r.1]⟩)

/-- The call `os.RemoveAll(path)`. -/
def Sys.RemoveAll (sys : Sys σ) (path : Path) : M σ Unit := fun st =>
  let r := sys.removeAll st.world path
  (errToExcept r.1, ⟨r.2, st.trace ++ [.removeAll path r.1]⟩)

/-- The call `os.Rename(oldpath, newpath)`. -/
def Sys.Rename (sys : Sys σ) (oldpath newpath : Path) : M σ Unit := fun st =>
  let r := sys.rename st.world oldpath newpath
  (errToExcept r.1, ⟨r.2, st.trace ++ [.rename oldpath newpath r.1]⟩)

/-- The loop of `Retry`: `extra` further attempts after the first one. -/
def retryLoop {α : Type} (f : M σ α) : Nat → M σ α
  | 0 => f
  | extra + 1 => fun st =>
    match f st with
    | (.ok a, st1) => (.ok a, st1)
    | (.error _, st1) => retryLoop f extra st1

/-- Modelled from the spec: `shared.Retry` is not among the sources. The
spec gives it a bounded retry count, the first success short-circuiting the
remaining attempts and exhaustion surfacing the last error, with no delay
required.  `attempts` is at least 1 (the callers pass 3). -/
def Retry {α : Type} (f : M σ α) (attempts : Nat) : M σ α :=
  retryLoop f (attempts - 1)

/-! ## altLinux -/

/-- The local `arch` of `altLinux.Run`. -/
def altLinux.arch (s : common) : String :=
  if s.definition.Image.ArchitectureMapped = "armhf" then "armh"
  else s.definition.Image.ArchitectureMapped

/-- The local `baseURL` of `altLinux.Run`. -/
def altLinux.baseURL (s : common) : String :=
  s.definition.Source.URL ++ "/" ++ s.definition.Image.Release ++ "/cloud/" ++ altLinux.arch s ++ "/"

/-- The local `fname` of `altLinux.Run`. -/
def altLinux.fname (sys : Sys σ) (s : common) : String :=
  "alt-" ++ sys.toLower s.definition.Image.Release ++ "-rootfs-systemd-" ++ altLinux.arch s ++
    ".tar.xz"

/-- The method `(*altLinux).Run` of `alt-http.go`. -/
def altLinux.Run (sys : Sys σ) (s : common) : M σ Unit := do
  let baseURL := altLinux.baseURL s
  let fname := altLinux.fname sys s
  match sys.parseURL baseURL with
  | .error err => M.fail (.wrapf "Failed to parse URL %q: %w" [baseURL] err)
  | .ok scheme =>
    let mut checksumFile := ""
    if !s.definition.Source.SkipVerification then
      if s.definition.Source.Keys.length ≠ 0 then
        checksumFile := baseURL ++ "SHA256SUMS"
        let fpath ← (sys.DownloadHash (checksumFile ++ ".gpg") "" none).onErr
          (.wrapf "Failed to download %q: %w" [checksumFile ++ ".gpg"])
        let _ ← (sys.DownloadHash checksumFile "" none).onErr
          (.wrapf "Failed to download %q: %w" [checksumFile])
        let valid ← (sys.VerifyFile (fpath.Join "SHA256SUMS")
          (some (fpath.Join "SHA256SUMS.gpg"))).onErr (.wrapf "Failed to verify file: %w" [])
        if !valid then
          M.fail (.errorf "Invalid signature for %q" ["SHA256SUMS"])
      else
        -- Force gpg checks when using http
        if scheme ≠ "https" then
          M.fail (.new "GPG keys are required if downloading from HTTP")
    let fpath ← (sys.DownloadHash (baseURL ++ fname) checksumFile (some .sha256)).onErr
      (.wrapf "Failed to download %q: %w" [baseURL ++ fname])
    -- Unpack
    (sys.Unpack (fpath.Join fname) s.rootfsDir).onErr (.wrapf "Failed to unpack %q: %w" [fname])
    return ()

/-! ## fedora -/

/-- Eight times the class of decimal digits, one after the other. -/
def digits8 : Re :=
  .seq .digit (.seq .digit (.seq .digit (.seq .digit (.seq .digit (.seq .digit
    (.seq .digit .digit))))))

/-- The compiled build pattern of `getLatestBuild`: eight digits, a dot, an
optional `n` with a dot, and one digit. -/
def fedoraBuildRe : Re :=
  .seq digits8 (.seq (.lit ['.']) (.seq (.opt (.lit ['n', '.'])) .digit))

/-- The head of `fedora.getLatestBuild`: the retried `http.Get` of the index
page and `io.ReadAll` of its body. -/
def fedora.getIndex (sys : Sys σ) (URL release : String) : M σ (Except GoError String) :=
  Retry
    ((sys.Get (URL ++ "/" ++ release)).onErr (.wrapf "Failed to GET %q: %w" [URL ++ "/" ++ release]))
    3

/-- The method `(*fedora).getLatestBuild` of `fedora-http.go`. -/
def fedora.getLatestBuild (sys : Sys σ) (URL release : String) : M σ String := do
  let body ← fedora.getIndex sys URL release
  match body with
  | .error err => M.fail (.wrapf "Failed to read body: %w" [] err)
  | .ok content =>
    -- Find all builds
    let found := FindAllString fedoraBuildRe content
    if found.length = 0 then
      M.fail (.new "Unable to find latest build")
    else
      -- Sort builds
      let sorted := sortStrings found
      -- Return latest build
      return sorted.getD (sorted.length - 1) ""

/-- The inner loop of `unpackLayers`, over the layers of one manifest element:
unpack the layer into the rootfs, then append its directory to `pathsToRemove`. -/
def fedora.unpackLayerList (sys : Sys σ) (rootfsDir : Path) :
    List String → List Path → M σ (List Path)
  | [], pathsToRemove => M.ret pathsToRemove
  | layer :: rest, pathsToRemove => do
    (sys.Unpack (rootfsDir.Join layer) rootfsDir).onErr
      (.wrapf "Failed to unpack %q: %w" [(rootfsDir.Join layer).str])
    fedora.unpackLayerList sys rootfsDir rest
      (pathsToRemove ++ [rootfsDir.Join (filepathDir layer)])

/-- The outer loop of `unpackLayers`, over the manifest elements: the layers,
then the element's `Config` appended to `pathsToRemove`. -/
def fedora.unpackManifests (sys : Sys σ) (rootfsDir : Path) :
    List Manifest → List Path → M σ (List Path)
  | [], pathsToRemove => M.ret pathsToRemove
  | manifest :: rest, pathsToRemove => do
    let pathsToRemove ← fedora.unpackLayerList sys rootfsDir manifest.Layers pathsToRemove
    fedora.unpackManifests sys rootfsDir rest (pathsToRemove ++ [rootfsDir.Join manifest.Config])

/-- The final loop of `unpackLayers`: `os.RemoveAll(f)` for each path, its
result dropped. -/
def fedora.removePaths (sys : Sys σ) : List Path → M σ Unit
  | [] => M.ret ()
  | f :: rest => fun st =>
    fedora.removePaths sys rest (sys.RemoveAll f st).2

/-- The method `(*fedora).unpackLayers` of `fedora-http.go`. -/
def fedora.unpackLayers (sys : Sys σ) (rootfsDir : Path) : M σ Unit := do
  -- Read manifest file which contains the path to the layers
  let file ← (sys.Open (rootfsDir.Join "manifest.json")).onErr
    (.wrapf "Failed to open %q: %w" [(rootfsDir.Join "manifest.json").str])
  match file with
  | .error err =>
    M.fail (.wrapf "Failed to read file %q: %w" [(rootfsDir.Join "manifest.json").str] err)
  | .ok data =>
    match sys.jsonUnmarshal data with
    | .error err => M.fail (.wrapf "Failed to unmarshal JSON data: %w" [] err)
    | .ok manifests =>
      let pathsToRemove := [rootfsDir.Join "manifest.json", rootfsDir.Join "repositories"]
      -- Unpack tarballs (or layers) which contain the rest of the rootfs, and
      -- remove files not relevant to the image.
      let pathsToRemove ← fedora.unpackManifests sys rootfsDir manifests pathsToRemove
      -- Clean up /tmp since there are unnecessary files there
      let files ← (sys.Glob (rootfsDir.Join "tmp")).onErr
        (.wrapf "Failed to find matching files: %w" [])
      let pathsToRemove := pathsToRemove ++ files
      -- Clean up /root since there are unnecessary files there
      let files ← (sys.Glob (rootfsDir.Join "root")).onErr
        (.wrapf "Failed to find matching files: %w" [])
      let pathsToRemove := pathsToRemove ++ files
      fedora.removePaths sys pathsToRemove

/-- The method `(*fedora).Run` of `fedora-http.go`. -/
def fedora.Run (sys : Sys σ) (s : common) : M σ Unit := do
  let baseURL := s.definition.Source.URL ++ "/packages/Fedora-Container-Base"
  -- Get latest build
  let build ← (fedora.getLatestBuild sys baseURL s.definition.Image.Release).onErr
    (.wrapf "Failed to get latest build: %w" [])
  let fname := "Fedora-Container-Base-" ++ s.definition.Image.Release ++ "-" ++ build ++ "." ++
    s.definition.Image.ArchitectureMapped ++ ".tar.xz"
  -- Download image
  let sourceURL := baseURL ++ "/" ++ s.definition.Image.Release ++ "/" ++ build ++ "/images/" ++
    fname
  let fpath ← (sys.DownloadHash sourceURL "" none).onErr
    (.wrapf "Failed to download %q: %w" [sourceURL])
  -- Unpack the base image
  (sys.Unpack (fpath.Join fname) s.rootfsDir).onErr
    (.wrapf "Failed to unpack %q: %w" [(fpath.Join fname).str])
  -- Unpack the rest of the image (/bin, /sbin, /usr, etc.)
  (fedora.unpackLayers sys s.rootfsDir).onErr (.wrapf "Failed to unpack: %w" [])
  return ()

/-! ## gentoo -/

/-- The compiled stage3 pattern of `getLatestBuild`: the text `lead` (the
opening quote, with what the format string puts before `stage3`), `stage3-`,
the architecture, `-`, the variant and `-` when there is one, then `.*`, a
`.`, `tar`, a `.`, the extension `ext` and `">`.  The architecture and the
variant go into the pattern as they are, so this is the pattern for names that
hold no character special to `regexp` (letters, digits, `-`, `_`). -/
def gentooRe (lead arch variant ext : String) : Re :=
  let name := if variant ≠ "" then "stage3-" ++ arch ++ "-" ++ variant ++ "-"
    else "stage3-" ++ arch ++ "-"
  .seq (.lit (lead ++ name).data) (.seq (.star .any) (.seq .any (.seq (.lit "tar".data)
    (.seq .any (.lit (ext ++ "\">").data)))))

/-- The head of `gentoo.getLatestBuild`: the retried `http.Get` of the index
page and `io.ReadAll` of its body. -/
def gentoo.getIndex (sys : Sys σ) (baseURL : String) : M σ (Except GoError String) :=
  Retry ((sys.Get baseURL).onErr (.wrapf "Failed to GET %q: %w" [baseURL])) 3

/-- The method `(*gentoo).getLatestBuild` of `gentoo.go`. -/
def gentoo.getLatestBuild (sys : Sys σ) (baseURL arch variant : String) : M σ String := do
  let resp ← gentoo.getIndex sys baseURL
  match resp with
  | .error err => M.fail (.wrapf "Failed to read body: %w" [] err)
  | .ok body =>
    -- Look for .tar.xz
    let regex := if variant ≠ "" then gentooRe "\"" arch variant "xz"
      else gentooRe "\"" arch "" "xz"
    -- Find all stage3 related files
    let found := FindAllString regex body
    if found.length > 0 then
      -- Take the first match since they're all the same anyway
      return stringsTrim (found.getD 0 "") "<>\""
    else
      -- Look for .tar.bz2
      let regex := if variant ≠ "" then gentooRe "\"" arch variant "bz2"
        else gentooRe "\">" arch "" "bz2"
      -- Find all stage3 related files
      let found := FindAllString regex body
      if found.length > 0 then
        -- Take the first match since they're all the same anyway
        return stringsTrim (found.getD 0 "") "<>\""
      else
        M.fail (.new "Failed to get match")

/-- The local `topLevelArch` of `gentoo.Run`. -/
def gentoo.topLevelArch (s : common) : String :=
  let arch := s.definition.Image.ArchitectureMapped
  if arch = "i686" then "x86"
  else if stringsHasPrefix arch "arm" ∧ arch ≠ "arm64" then "arm"
  else if stringsHasPrefix arch "ppc" then "ppc"
  else if stringsHasPrefix arch "s390" then "s390"
  else arch

/-- The first `baseURL` of `gentoo.Run`, the directory of the stage3 builds. -/
def gentoo.baseURL (s : common) : String :=
  if s.definition.Source.Variant ≠ "" then
    s.definition.Source.URL ++ "/releases/" ++ gentoo.topLevelArch s ++
      "/autobuilds/current-stage3-" ++ s.definition.Image.ArchitectureMapped ++ "-" ++
      s.definition.Source.Variant
  else
    s.definition.Source.URL ++ "/releases/" ++ gentoo.topLevelArch s ++
      "/autobuilds/current-stage3-" ++ s.definition.Image.ArchitectureMapped

/-- The method `(*gentoo).Run` of `gentoo.go`. -/
def gentoo.Run (sys : Sys σ) (s : common) : M σ Unit := do
  let arch := s.definition.Image.ArchitectureMapped
  let baseURL := gentoo.baseURL s
  let fname ← (gentoo.getLatestBuild sys baseURL arch s.definition.Source.Variant).onErr
    (.wrapf "Failed to get latest build: %w" [])
  let tarball := baseURL ++ "/" ++ fname
  match sys.parseURL tarball with
  | .error err => M.fail (.wrapf "Failed to parse %q: %w" [tarball] err)
  | .ok scheme =>
    if !s.definition.Source.SkipVerification ∧ scheme ≠ "https" ∧
        s.definition.Source.Keys.length = 0 then
      M.fail (.new "GPG keys are required if downloading from HTTP")
    else
      let fpath ←
        (if s.definition.Source.SkipVerification then sys.DownloadHash tarball "" none
          else sys.DownloadHash tarball (tarball ++ ".DIGESTS") (some .sha512)).onErr
          (.wrapf "Failed to download %q: %w" [tarball])
      -- Force gpg checks when using http
      if !s.definition.Source.SkipVerification ∧ scheme ≠ "https" then
        let _ ← (sys.DownloadHash (tarball ++ ".DIGESTS.asc") "" none).onErr
          (.wrapf "Failed to download %q: %w" [tarball ++ ".DIGESTS.asc"])
        let valid ← (sys.VerifyFile (fpath.Join (fname ++ ".DIGESTS.asc")) none).onErr
          (.wrapf "Failed to verify %q: %w" [(fpath.Join (fname ++ ".DIGESTS.asc")).str])
        if !valid then
          M.fail (.errorf "Failed to verify %q" [fname ++ ".DIGESTS.asc"])
      -- Unpack
      (sys.Unpack (fpath.Join fname) s.rootfsDir).onErr
        (.wrapf "Failed to unpack %q: %w" [(fpath.Join fname).str])
      -- Download portage tree snapshot.
      let baseURL := s.definition.Source.URL ++ "/snapshots"
      let fname := "portage-latest.tar.xz"
      let tarball := baseURL ++ "/" ++ fname
      let fpath ← (sys.DownloadHash tarball "" none).onErr
        (.wrapf "Failed to download %q: %w" [tarball])
      -- Force gpg checks when using http
      if !s.definition.Source.SkipVerification ∧ scheme ≠ "https" then
        let _ ← (sys.DownloadHash (tarball ++ ".gpgsig") "" none).onErr
          (.wrapf "Failed to download %q: %w" [tarball ++ ".gpgsig"])
        let valid ← (sys.VerifyFile (fpath.Join (fname ++ ".gpgsig")) none).onErr
          (.wrapf "Failed to verify %q: %w" [(fpath.Join (fname ++ ".gpgsig")).str])
        if !valid then
          M.fail (.errorf "Failed to verify %q" [fname ++ ".gpgsig"])
      -- Unpack
      (sys.Unpack (fpath.Join fname) (s.rootfsDir.Join "var/db/repos")).onErr
        (.wrapf "Failed to unpack %q: %w" [(fpath.Join fname).str])
      (sys.RemoveAll (s.rootfsDir.Join "var/db/repos/gentoo")).onErr
        (.wrapf "Failed to remove %q: %w" [(s.rootfsDir.Join "var/db/repos/gentoo").str])
      (sys.Rename (s.rootfsDir.Join "var/db/repos/portage")
        (s.rootfsDir.Join "var/db/repos/gentoo")).onErr
        (.wrapf "Failed to rename %q: %w" [(s.rootfsDir.Join "var/db/repos/portage").str])
      return ()

/-! ## A file tree as the world

For the content of the rootfs the world is a file tree, and `shared.Unpack`
overlays the files of an archive on it. -/

/-- A file tree: the files, each with its content.  A directory is there as
long as a file lies below it. -/
abbrev FS := List (Path × String)

/-- The content of the file at `p`. -/
def FS.read (fs : FS) (p : Path) : Option String :=
  (fs.find? (fun e => decide (e.1 = p))).map (fun e => e.2)

/-- Write the file `p`, replacing what was there. -/
def FS.write (fs : FS) (p : Path) (c : String) : FS :=
  (p, c) :: fs.filter (fun e => decide (e.1 ≠ p))

/-- Something exists at `p`: a file at `p` or below it. -/
def FS.pathExists (fs : FS) (p : Path) : Bool :=
  fs.any (fun e => p.isPrefixOf e.1)

/-- The tree after `os.RemoveAll(p)`: `p` and everything below it is gone. -/
def FS.removeAll (fs : FS) (p : Path) : FS :=
  fs.filter (fun e => !p.isPrefixOf e.1)

/-- The entries directly inside the directory `dir`, as `filepath.Glob` of
`dir/*` lists them (each once). -/
def FS.entries (fs : FS) (dir : Path) : List Path :=
  (fs.filterMap (fun e =>
    if dir.isPrefixOf e.1 then (e.1.drop dir.length).head?.map (fun n => dir ++ [n])
    else none)).dedup

/-- What unpacking the archive `file` into `dir` writes: the files of the
archive (`decode` reads its entries, name and content, from the bytes of the
archive), each at `filepath.Join(dir, name)`, in archive order. -/
def FS.archiveWrites (decode : String → Except GoError (List (String × String)))
    (fs : FS) (file dir : Path) : Except GoError (List (Path × String)) :=
  match fs.read file with
  | none => .error (.new ("open " ++ file.str ++ ": no such file or directory"))
  | some bytes =>
    match decode bytes with
    | .error e => .error e
    | .ok entries => .ok (entries.map (fun e => (dir.Join e.1, e.2)))

/-- Apply a list of writes, in order. -/
def FS.writeAll (fs : FS) (ws : List (Path × String)) : FS :=
  ws.foldl (fun acc w => acc.write w.1 w.2) fs

/-- Modelled from the spec: `shared.Unpack(file, dir)` is not among the sources.
The spec has it extract a single archive into a target directory, later
archives overwriting the files laid down by earlier ones (last write wins per
path).  Here the archive is read from the tree itself, its files are laid over
the tree, and an archive that cannot be read leaves the tree as it is. -/
def FS.unpack (decode : String → Except GoError (List (String × String)))
    (fs : FS) (file dir : Path) : Option GoError × FS :=
  match FS.archiveWrites decode fs file dir with
  | .error e => (some e, fs)
  | .ok ws => (none, fs.writeAll ws)

/-- The world that is a file tree and nothing else (no network, no keyring). -/
def fsSys (decode : String → Except GoError (List (String × String)))
    (unmarshal : String → Except GoError (List Manifest)) : Sys FS where
  parseURL := fun _ => .error (.new "no network")
  toLower := fun x => x
  jsonUnmarshal := unmarshal
  httpGet := fun fs _ => (.error (.new "no network"), fs)
  downloadHash := fun fs _ _ _ => (.error (.new "no network"), fs)
  verifyFile := fun fs _ _ => (.error (.new "no keyring"), fs)
  unpack := FS.unpack decode
  readFile := fun fs p =>
    match fs.read p with
    | none => (.error (.new ("open " ++ p.str ++ ": no such file or directory")), fs)
    | some c => (.ok (.ok c), fs)
  glob := fun fs dir => (.ok (fs.entries dir), fs)
  removeAll := fun fs p => (none, fs.removeAll p)
  rename := fun fs _ _ => (some (.new "not supported"), fs)

/-- The layer paths of a manifest, in the order `unpackLayers` visits them. -/
def layersOf (manifests : List Manifest) : List String :=
  manifests.flatMap (fun m => m.Layers)

/-- What the loop of `unpackLayers` appends to `pathsToRemove`: for each
manifest element the directory of each layer, then the `Config` path. -/
def cleanupOf (rootfsDir : Path) (manifests : List Manifest) : List Path :=
  manifests.flatMap (fun m =>
    m.Layers.map (fun layer => rootfsDir.Join (filepathDir layer)) ++ [rootfsDir.Join m.Config])

/-- How far the unpack loop gets on a file tree: the layers unpacked, the tree
they leave, and the layer whose unpack failed, with its error, if one did. -/
structure UnpackOutcome where
  unpacked : List String
  tree : FS
  failed : Option (String × GoError)

/-- Unpack the layers `layers` one after the other into `rootfsDir`, up to the
first unpack that fails. -/
def unpackAll (decode : String → Except GoError (List (String × String))) (rootfsDir : Path) :
    FS → List String → UnpackOutcome
  | fs, [] => ⟨[], fs, none⟩
  | fs, layer :: rest =>
    match FS.archiveWrites decode fs (rootfsDir.Join layer) rootfsDir with
    | .error e => ⟨[], fs, some (layer, e)⟩
    | .ok ws =>
      ⟨layer :: (unpackAll decode rootfsDir (fs.writeAll ws) rest).unpacked,
        (unpackAll decode rootfsDir (fs.writeAll ws) rest).tree,
        (unpackAll decode rootfsDir (fs.writeAll ws) rest).failed⟩

/-- The paths `unpackLayers` removes after a loop that left the tree `tree`:
`manifest.json` and `repositories`, what the loop appended, then the entries
of `tmp` and of `root`. -/
def removalList (rootfsDir : Path) (manifests : List Manifest) (tree : FS) : List Path :=
  [rootfsDir.Join "manifest.json", rootfsDir.Join "repositories"] ++
    cleanupOf rootfsDir manifests ++ tree.entries (rootfsDir.Join "tmp") ++
    tree.entries (rootfsDir.Join "root")

/-- The write log of unpacking `layers` in order: for each layer unpacked, what
it wrote, read from its archive at the moment it is unpacked. -/
def writeLog (decode : String → Except GoError (List (String × String))) (rootfsDir : Path) :
    FS → List String → List (List (Path × String))
  | _, [] => []
  | fs, layer :: rest =>
    match FS.archiveWrites decode fs (rootfsDir.Join layer) rootfsDir with
    | .error _ => []
    | .ok ws => ws :: writeLog decode rootfsDir (fs.writeAll ws) rest

/-- The content a list of writes leaves at `p`: that of its last write to `p`. -/
def lastWrite (ws : List (Path × String)) (p : Path) : Option String :=
  (ws.reverse.find? (fun w => decide (w.1 = p))).map (fun w => w.2)

/-! ## Worlds for the examples -/

/-- A world that answers every call the same way: the index page is `body`,
every download lands in `/cache`, signatures are `valid`, and the scheme of a
URL is what stands before its first colon. -/
def demoSys (body : String) (valid : Bool) : Sys Unit where
  parseURL := fun u => .ok (String.mk (u.data.takeWhile (fun c => c ≠ ':')))
  toLower := fun x => x
  jsonUnmarshal := fun _ => .ok []
  httpGet := fun _ _ => (.ok (.ok body), ())
  downloadHash := fun _ _ _ _ => (.ok ["cache"], ())
  verifyFile := fun _ _ _ => (.ok valid, ())
  unpack := fun _ _ _ => (none, ())
  readFile := fun _ _ => (.ok (.ok "[]"), ())
  glob := fun _ _ => (.ok [], ())
  removeAll := fun _ _ => (none, ())
  rename := fun _ _ _ => (none, ())

/-- A definition for release `r1` on `amd64`, with no variant. -/
def demoCommon (url : String) (keys : List String) (skip : Bool) : common :=
  ⟨⟨⟨"r1", "amd64"⟩, ⟨url, keys, "", skip⟩⟩, ["rootfs"]⟩

/-- The definition of `demoCommon` with the variant `variant`. -/
def demoCommonVariant (url : String) (keys : List String) (variant : String) (skip : Bool) :
    common :=
  ⟨⟨⟨"r1", "amd64"⟩, ⟨url, keys, variant, skip⟩⟩, ["rootfs"]⟩

/-- An archive codec for the examples: the bytes of an archive are its
entries, one per line, as `name=content`. -/
def demoDecode (bytes : String) : Except GoError (List (String × String)) :=
  if bytes = "" then .error (.new "unexpected EOF")
  else .ok (((bytes.data.splitOn '\n').map (fun l =>
    (String.mk (l.takeWhile (fun c => c ≠ '=')),
      String.mk ((l.dropWhile (fun c => c ≠ '=')).drop 1)))))

/-- The manifest text of the layer-ordering example: two elements, with the
layers `a/layer.tar` and `b/layer.tar`. -/
def demoDataAB : String :=
  "[\x7b\"Layers\":[\"a/layer.tar\"],\"Config\":\"a/json\"\x7d,\x7b\"Layers\":[\"b/layer.tar\"],\"Config\":\"b/json\"\x7d]"

/-- The manifest text of the end-to-end example: one layer `l1/layer.tar`. -/
def demoDataL1 : String := "[\x7b\"Layers\":[\"l1/layer.tar\"],\"Config\":\"l1/json\"\x7d]"

/-- A manifest text whose only element has no `Config` field. -/
def demoDataNoConfig : String := "[\x7b\"Layers\":[\"l1/layer.tar\"]\x7d]"

/-- A manifest reader for the examples, which knows the three manifest texts;
the `Config` that is absent from the text is the empty string. -/
def demoUnmarshal (data : String) : Except GoError (List Manifest) :=
  if data = demoDataAB then .ok [⟨["a/layer.tar"], "a/json"⟩, ⟨["b/layer.tar"], "b/json"⟩]
  else if data = demoDataL1 then .ok [⟨["l1/layer.tar"], "l1/json"⟩]
  else if data = demoDataNoConfig then .ok [⟨["l1/layer.tar"], ""⟩]
  else .error (.new "invalid character")

/-- The tree of the layer-ordering example: both layers write `etc/os-release`. -/
def demoTreeAB : FS :=
  [(["rootfs", "manifest.json"], demoDataAB),
    (["rootfs", "a", "layer.tar"], "etc/os-release=A\nbin/sh=a"),
    (["rootfs", "b", "layer.tar"], "etc/os-release=B"),
    (["rootfs", "a", "json"], "cfg"), (["rootfs", "b", "json"], "cfg")]

/-- The tree of the layer-ordering example with an archive `b/layer.tar` that
cannot be read. -/
def demoTreeBroken : FS :=
  [(["rootfs", "manifest.json"], demoDataAB),
    (["rootfs", "a", "layer.tar"], "etc/os-release=A\nbin/sh=a"),
    (["rootfs", "b", "layer.tar"], "")]

/-- The tree of the end-to-end example, after the base image was unpacked. -/
def demoTreeL1 : FS :=
  [(["rootfs", "manifest.json"], demoDataL1), (["rootfs", "repositories"], "repo"),
    (["rootfs", "l1", "layer.tar"], "usr/bin/env=E\ntmp/junk=j"),
    (["rootfs", "l1", "json"], "cfg"), (["rootfs", "tmp", "build", "log"], "x"),
    (["rootfs", "root", ".history"], "y")]

/-- A tree whose manifest has no `Config` field. -/
def demoTreeNoConfig : FS :=
  [(["rootfs", "manifest.json"], demoDataNoConfig),
    (["rootfs", "l1", "layer.tar"], "usr/bin/env=E")]

/-! ## Properties of runs -/

/-- The error of the trust floor. -/
def keysRequired : GoError := .new "GPG keys are required if downloading from HTTP"

/-- The endings of the URL of a checksum manifest or of a signature file. -/
def trustFileSuffixes : List String :=
  ["SHA256SUMS", "SHA256SUMS.gpg", ".DIGESTS", ".DIGESTS.asc", ".gpgsig"]

/-- The event is a `http.Get`. -/
def Event.isHttpGet : Event → Bool
  | .httpGet _ _ => true
  | _ => false

/-- The event is a call of `VerifyFile`. -/
def Event.isVerifyFile : Event → Bool
  | .verifyFile _ _ _ => true
  | _ => false

/-- The event is a call of `shared.Unpack`. -/
def Event.isUnpack : Event → Bool
  | .unpack _ _ _ => true
  | _ => false

/-- The event is a `VerifyFile` that found the signature valid. -/
def Event.isValidSignature : Event → Bool
  | .verifyFile _ _ (.ok true) => true
  | _ => false

/-- The event is a `VerifyFile` that found the signature invalid. -/
def Event.isInvalidSignature : Event → Bool
  | .verifyFile _ _ (.ok false) => true
  | _ => false

/-- The event is a `DownloadHash` that takes a checksum manifest as its hash
source. -/
def Event.usesManifest : Event → Bool
  | .downloadHash _ checksum _ _ => checksum ≠ ""
  | _ => false

/-- The event is a successful `DownloadHash` of `url` with no hash source. -/
def Event.fetched (url : String) : Event → Bool
  | .downloadHash file checksum _ (.ok _) => file = url && checksum = ""
  | _ => false

/-- The characters special to `regexp`, those `regexp.QuoteMeta` escapes. -/
def regexpSpecial : String := "\\.+*?()|[]\x7b\x7d^$"

/-- The name holds no character special to `regexp`: interpolated into a
pattern it stands for itself.  These are the names for which `gentooRe` is the
pattern `getLatestBuild` compiles. -/
def regexpLiteral (name : String) : Bool :=
  name.data.all (fun c => !regexpSpecial.data.contains c)

/-- The event asks for a URL that ends like a checksum manifest or a
signature file, with `http.Get` or with `DownloadHash`. -/
def Event.requestsTrustFile : Event → Bool
  | .httpGet url _ => trustFileSuffixes.any (fun suffix => stringsHasSuffix url suffix)
  | .downloadHash file _ _ _ =>
    trustFileSuffixes.any (fun suffix => stringsHasSuffix file suffix)
  | _ => false

/-- What a run that skips verification may do: a `http.Get` asks for the index
page `index` and for nothing else (for nothing at all when there is no index
page), a `DownloadHash` takes no checksum manifest and asks for no URL that
ends like a manifest or a signature, and `VerifyFile` is not called. -/
def Event.withoutTrustFiles (index : Option String) : Event → Bool
  | .httpGet url _ => index = some url
  | .downloadHash file checksum _ _ =>
    checksum = "" && !(trustFileSuffixes.any (fun suffix => stringsHasSuffix file suffix))
  | .verifyFile _ _ _ => false
  | _ => true

/-- What a run that never verifies does: every `DownloadHash` is without
checksum manifest and hash function, and `VerifyFile` is not called. -/
def Event.unverified : Event → Bool
  | .downloadHash _ checksum hashFunc _ => checksum = "" && hashFunc = none
  | .verifyFile _ _ _ => false
  | _ => true

/-- In the trace, every event of kind `b` comes after some event of kind `a`. -/
def precededBy (a b : Event → Bool) : List Event → Bool
  | [] => true
  | e :: es => if a e then true else !b e && precededBy a b es

/-- The events `m` appends to the trace all satisfy `P`, its value satisfies
`Q` and its error satisfies `E`. -/
def M.Spec {α : Type} (m : M σ α) (P : Event → Prop) (Q : α → Prop) (E : GoError → Prop) : Prop :=
  ∀ st, (∃ evs, (m st).2.trace = st.trace ++ evs ∧ ∀ e ∈ evs, P e) ∧
    (∀ a, (m st).1 = .ok a → Q a) ∧ (∀ e, (m st).1 = .error e → E e)
/-- The events of the unpack loop: one successful `Unpack` per layer
unpacked, then the failed one if there is one. -/
def unpackEvents (rootfsDir : Path) (o : UnpackOutcome) : List Event :=
  o.unpacked.map (fun l => Event.unpack (rootfsDir.Join l) rootfsDir none) ++
    match o.failed with
    | none => []
    | some (l, e) => [Event.unpack (rootfsDir.Join l) rootfsDir (some e)]

/-- The result of the unpack loop. -/
def unpackResult (rootfsDir : Path) (o : UnpackOutcome) (paths : List Path) :
    Except GoError (List Path) :=
  match o.failed with
  | none => .ok paths
  | some (l, e) => .error (.wrapf "Failed to unpack %q: %w" [(rootfsDir.Join l).str] e)

/-! ## Lemmas: the monad -/

theorem M.bind_apply {α β : Type} (m : M σ α) (f : α → M σ β) (st : RunState σ) :
    (m >>= f) st = match m st with
      | (.ok a, st1) => f a st1
      | (.error e, st1) => (.error e, st1) := rfl

theorem M.pure_apply {α : Type} (a : α) (st : RunState σ) :
    (pure a : M σ α) st = (.ok a, st) := rfl

/-! ## Lemmas: string order and sorting -/

theorem strLE_total : ∀ a b : List Char, strLE a b = true ∨ strLE b a = true
  | [], _ => Or.inl (by simp [strLE])
  | _ :: _, [] => Or.inr (by simp [strLE])
  | a :: as, b :: bs => by
    rcases Nat.lt_trichotomy a.toNat b.toNat with h | h | h
    · left; simp [strLE, h]
    · rcases strLE_total as bs with h1 | h1
      · left; simp [strLE, h, h1]
      · right; simp [strLE, h, h1]
    · right; simp [strLE, h]

theorem strLE_trans : ∀ a b c : List Char, strLE a b = true → strLE b c = true → strLE a c = true
  | [], _, _ => by simp [strLE]
  | _ :: _, [], _ => by simp [strLE]
  | _ :: _, _ :: _, [] => by simp [strLE]
  | a :: as, b :: bs, c :: cs => by
    intro h1 h2
    simp only [strLE] at h1 h2 ⊢
    split_ifs at h1 h2 ⊢ <;> first
      | rfl
      | omega
      | exact strLE_trans as bs cs h1 h2

theorem strLE_antisymm : ∀ a b : List Char, strLE a b = true → strLE b a = true → a = b
  | [], [] => by simp
  | [], _ :: _ => by simp [strLE]
  | _ :: _, [] => by simp [strLE]
  | a :: as, b :: bs => by
    intro h1 h2
    simp only [strLE] at h1 h2
    split_ifs at h1 h2 <;> first
      | omega
      | (have hab : a = b := by
            apply Char.ext; apply UInt32.ext; simp only [Char.toNat, UInt32.toNat] at *; omega
         rw [hab, strLE_antisymm as bs h1 h2])

theorem sortStrings_perm (xs : List String) : (sortStrings xs).Perm xs :=
  List.perm_insertionSort _ xs

theorem sortStrings_last (xs : List String) (hne : xs ≠ []) :
    (sortStrings xs).getD ((sortStrings xs).length - 1) "" ∈ xs ∧
    ∀ m ∈ xs, goStringLE m ((sortStrings xs).getD ((sortStrings xs).length - 1) "") = true := by
  haveI : IsTotal String (fun a b => goStringLE a b = true) :=
    ⟨fun a b => strLE_total a.data b.data⟩
  haveI : IsTrans String (fun a b => goStringLE a b = true) :=
    ⟨fun a b c => strLE_trans a.data b.data c.data⟩
  have hs : (sortStrings xs).Sorted (fun a b => goStringLE a b = true) :=
    List.sorted_insertionSort _ xs
  have hp := sortStrings_perm xs
  generalize sortStrings xs = l at hs hp
  have hl : l ≠ [] := by
    intro h; subst h; exact hne (List.Perm.eq_nil hp.symm)
  obtain ⟨ini, z, rfl⟩ : ∃ ini z, l = ini ++ [z] :=
    ⟨l.dropLast, l.getLast hl, (List.dropLast_append_getLast hl).symm⟩
  have hz : (ini ++ [z]).getD ((ini ++ [z]).length - 1) "" = z := by
    simp [List.getD_eq_getElem?_getD]
  rw [hz]
  refine ⟨hp.mem_iff.mp (by simp), fun m hm => ?_⟩
  have hm1 : m ∈ ini ++ [z] := hp.mem_iff.mpr hm
  rcases List.mem_append.mp hm1 with h | h
  · have := List.pairwise_append.mp hs
    exact this.2.2 m h z (by simp)
  · have : m = z := by simpa using h
    subst this
    rcases strLE_total m.data m.data with h | h <;> exact h

/-! ## Lemmas: the matcher -/

theorem Re.starAux_suffix (f : List Char → List (List Char))
    (hf : ∀ s r, r ∈ f s → r <:+ s) :
    ∀ (n : Nat) (s r : List Char), r ∈ Re.starAux f n s → r <:+ s
  | 0, s, r, h => by
    simp only [Re.starAux, List.mem_singleton] at h
    subst h; exact List.suffix_refl _
  | n + 1, s, r, h => by
    simp only [Re.starAux, List.mem_append, List.mem_flatMap, List.mem_filter,
      List.mem_singleton] at h
    rcases h with ⟨t, ⟨ht, _⟩, hr⟩ | rfl
    · exact (Re.starAux_suffix f hf n t r hr).trans (hf s t ht)
    · exact List.suffix_refl _

theorem Re.run_suffix : ∀ (re : Re) (s r : List Char), r ∈ re.run s → r <:+ s
  | .lit l, s, r, h => by
    simp only [Re.run] at h
    split_ifs at h
    · simp only [List.mem_singleton] at h; subst h; exact List.drop_suffix _ _
    · simp at h
  | .any, s, r, h => by
    cases s with
    | nil => simp [Re.run] at h
    | cons c cs =>
      simp only [Re.run] at h
      split_ifs at h
      · simp at h
      · simp only [List.mem_singleton] at h; subst h; exact List.suffix_cons _ _
  | .digit, s, r, h => by
    cases s with
    | nil => simp [Re.run] at h
    | cons c cs =>
      simp only [Re.run] at h
      split_ifs at h
      · simp only [List.mem_singleton] at h; subst h; exact List.suffix_cons _ _
      · simp at h
  | .seq a b, s, r, h => by
    simp only [Re.run, List.mem_flatMap] at h
    obtain ⟨t, ht, hr⟩ := h
    exact (Re.run_suffix b t r hr).trans (Re.run_suffix a s t ht)
  | .opt a, s, r, h => by
    simp only [Re.run, List.mem_append, List.mem_singleton] at h
    rcases h with h | rfl
    · exact Re.run_suffix a s r h
    · exact List.suffix_refl _
  | .star a, s, r, h => by
    simp only [Re.run] at h
    exact Re.starAux_suffix _ (fun s r => Re.run_suffix a s r) _ _ _ h

theorem Re.matchAt_mem {re : Re} {s rest : List Char} (h : re.matchAt s = some rest) :
    rest ∈ re.run s := by
  unfold Re.matchAt at h
  exact List.mem_of_mem_head? h

theorem Re.matchAt_split {re : Re} {s rest : List Char} (h : re.matchAt s = some rest) :
    s = s.take (s.length - rest.length) ++ rest := by
  obtain ⟨t, rfl⟩ := Re.run_suffix re s rest (Re.matchAt_mem h)
  simp

theorem findAllAux_succ (re : Re) (fuel : Nat) (afterMatch : Bool) (s : List Char) :
    findAllAux re (fuel + 1) afterMatch s =
      match re.matchAt s with
      | none =>
        match s with
        | [] => []
        | _ :: cs => findAllAux re fuel false cs
      | some rest =>
        if rest.length < s.length then
          s.take (s.length - rest.length) :: findAllAux re fuel true rest
        else
          match s with
          | [] => if afterMatch then [] else [[]]
          | _ :: cs =>
            if afterMatch then findAllAux re fuel false cs
            else [] :: findAllAux re fuel false cs := rfl

/-- Every element of the scan is the text of a leftmost-first match at some
place of the input. -/
theorem findAllAux_mem (re : Re) :
    ∀ (fuel : Nat) (flag : Bool) (s m : List Char), m ∈ findAllAux re fuel flag s →
      ∃ pre rest, s = pre ++ (m ++ rest) ∧ re.matchAt (m ++ rest) = some rest
  | 0, _, _, _, h => by simp [findAllAux] at h
  | fuel + 1, flag, s, m, h => by
    have lift : ∀ (c : Char) (cs : List Char) (fl : Bool), s = c :: cs →
        m ∈ findAllAux re fuel fl cs →
        ∃ pre rest, s = pre ++ (m ++ rest) ∧ re.matchAt (m ++ rest) = some rest := by
      intro c cs fl hs hm
      obtain ⟨pre, rest, h1, h2⟩ := findAllAux_mem re fuel fl cs m hm
      exact ⟨c :: pre, rest, by rw [hs, h1]; rfl, h2⟩
    have here : ∀ rest, re.matchAt s = some rest → m = s.take (s.length - rest.length) →
        ∃ pre rest, s = pre ++ (m ++ rest) ∧ re.matchAt (m ++ rest) = some rest := by
      intro rest hr hm
      have hs := Re.matchAt_split hr
      rw [← hm] at hs
      exact ⟨[], rest, by simpa using hs, by rw [← hs]; exact hr⟩
    rw [findAllAux_succ] at h
    cases hr : re.matchAt s with
    | none =>
      rw [hr] at h
      cases s with
      | nil => simp at h
      | cons c cs => exact lift c cs false rfl h
    | some rest =>
      rw [hr] at h
      simp only at h
      by_cases hlt : rest.length < s.length
      · rw [if_pos hlt] at h
        rcases List.mem_cons.mp h with h | h
        · exact here rest hr h
        · obtain ⟨pre, rest2, h1, h2⟩ := findAllAux_mem re fuel true rest m h
          refine ⟨s.take (s.length - rest.length) ++ pre, rest2, ?_, h2⟩
          rw [List.append_assoc]
          exact (Re.matchAt_split hr).trans (congrArg (fun t => s.take (s.length - rest.length) ++ t) h1)
      · rw [if_neg hlt] at h
        have hz : s.take (s.length - rest.length) = [] := by
          have : s.length - rest.length = 0 := by omega
          simp [this]
        cases s with
        | nil =>
          cases flag
          · simp only [Bool.false_eq_true, if_false, List.mem_singleton] at h
            exact here rest hr (by rw [h, hz])
          · simp at h
        | cons c cs =>
          cases flag
          · simp only [Bool.false_eq_true, if_false] at h
            rcases List.mem_cons.mp h with h | h
            · exact here rest hr (by rw [h, hz])
            · exact lift c cs false rfl h
          · simp only [if_true] at h
            exact lift c cs false rfl h

/-- The scan finds nothing exactly when the pattern matches at no place of the
input. -/
theorem findAllAux_eq_nil (re : Re) :
    ∀ (fuel : Nat) (s : List Char), s.length < fuel →
      (findAllAux re fuel false s = [] ↔ ∀ t, t <:+ s → re.matchAt t = none)
  | 0, _, h => by omega
  | fuel + 1, s, hlen => by
    rw [findAllAux_succ]
    cases hr : re.matchAt s with
    | none =>
      cases s with
      | nil =>
        simp only [true_iff]
        intro t ht
        have : t = [] := List.eq_nil_of_suffix_nil ht
        rw [this]; exact hr
      | cons c cs =>
        simp only
        rw [findAllAux_eq_nil re fuel cs (by simpa using hlen)]
        constructor
        · intro h t ht
          rcases List.suffix_cons_iff.mp ht with rfl | ht
          · exact hr
          · exact h t ht
        · intro h t ht
          exact h t (ht.trans (List.suffix_cons _ _))
    | some rest =>
      have hneg : ¬ ∀ t, t <:+ s → re.matchAt t = none := by
        intro h
        have := h s (List.suffix_refl _)
        rw [hr] at this; cases this
      simp only [hneg, iff_false]
      by_cases hlt : rest.length < s.length
      · rw [if_pos hlt]; simp
      · rw [if_neg hlt]; cases s <;> simp

theorem FindAllString_eq_nil (re : Re) (s : String) :
    FindAllString re s = [] ↔ ∀ t, t <:+ s.data → re.matchAt t = none := by
  unfold FindAllString
  rw [List.map_eq_nil_iff]
  exact findAllAux_eq_nil re (s.length + 1) s.data (by cases s; exact Nat.lt_succ_self _)

theorem FindAllString_mem (re : Re) (s m : String) (h : m ∈ FindAllString re s) :
    ∃ pre rest, s.data = pre ++ (m.data ++ rest) ∧ re.matchAt (m.data ++ rest) = some rest := by
  unfold FindAllString at h
  obtain ⟨l, hl, rfl⟩ := List.mem_map.mp h
  exact findAllAux_mem re _ _ _ _ hl

theorem fedora.getLatestBuild_eq (sys : Sys σ) (URL release content : String)
    (st st1 : RunState σ)
    (hget : fedora.getIndex sys URL release st = (.ok (.ok content), st1)) :
    fedora.getLatestBuild sys URL release st =
      (if FindAllString fedoraBuildRe content = [] then
          .error (.new "Unable to find latest build")
        else .ok ((sortStrings (FindAllString fedoraBuildRe content)).getD
          ((sortStrings (FindAllString fedoraBuildRe content)).length - 1) ""), st1) := by
  unfold fedora.getLatestBuild
  simp only [M.bind_apply, hget]
  by_cases h : FindAllString fedoraBuildRe content = []
  · simp [h, M.fail]
  · have h2 : (FindAllString fedoraBuildRe content).length ≠ 0 := by
      simpa [List.length_eq_zero] using h
    simp [h, h2, M.pure_apply]

/-- C4. After a successful GET of the index page, `fedora.getLatestBuild` fails
with "Unable to find latest build" exactly when the build pattern matches
nowhere in the body; otherwise it returns one of the matches found in the body,
which is greater than or equal to every match in the lexicographic order of
strings, and which depends only on the matches, not on their places. -/
theorem fedora_getLatestBuild_maximum (sys : Sys σ) (URL release content : String)
    (st st1 : RunState σ)
    (hget : fedora.getIndex sys URL release st = (.ok (.ok content), st1)) :
    ((fedora.getLatestBuild sys URL release st).1 = .error (.new "Unable to find latest build") ↔
      FindAllString fedoraBuildRe content = []) ∧
    (FindAllString fedoraBuildRe content = [] ↔
      ∀ t, t <:+ content.data → fedoraBuildRe.matchAt t = none) ∧
    (FindAllString fedoraBuildRe content ≠ [] →
      ∃ b, fedora.getLatestBuild sys URL release st = (.ok b, st1) ∧
        b ∈ FindAllString fedoraBuildRe content ∧
        (∃ pre rest, content.data = pre ++ (b.data ++ rest) ∧
          fedoraBuildRe.matchAt (b.data ++ rest) = some rest) ∧
        ∀ m ∈ FindAllString fedoraBuildRe content, goStringLE m b = true) ∧
    (∀ (sys2 : Sys σ) (URL2 release2 content2 : String) (st2 st3 : RunState σ),
      fedora.getIndex sys2 URL2 release2 st2 = (.ok (.ok content2), st3) →
      (FindAllString fedoraBuildRe content2).Perm (FindAllString fedoraBuildRe content) →
      (fedora.getLatestBuild sys2 URL2 release2 st2).1 =
        (fedora.getLatestBuild sys URL release st).1) := by
  have key := fedora.getLatestBuild_eq sys URL release content st st1 hget
  refine ⟨?_, FindAllString_eq_nil _ _, ?_, ?_⟩
  · rw [key]
    by_cases h : FindAllString fedoraBuildRe content = [] <;> simp [h]
  · intro hne
    have hl := sortStrings_last _ hne
    refine ⟨_, ?_, hl.1, FindAllString_mem _ _ _ hl.1, hl.2⟩
    rw [key, if_neg hne]
  · intro sys2 URL2 release2 content2 st2 st3 hget2 hperm
    rw [key, fedora.getLatestBuild_eq sys2 URL2 release2 content2 st2 st3 hget2]
    by_cases h : FindAllString fedoraBuildRe content = []
    · have h2 : FindAllString fedoraBuildRe content2 = [] := by
        rw [h] at hperm; exact hperm.eq_nil
      simp [h, h2]
    · have h2 : FindAllString fedoraBuildRe content2 ≠ [] := by
        intro h2; rw [h2] at hperm; exact h hperm.symm.eq_nil
      simp only [if_neg h, if_neg h2]
      have l1 := sortStrings_last _ h
      have l2 := sortStrings_last _ h2
      have e : ∀ a b : String, goStringLE a b = true → goStringLE b a = true → a = b := by
        intro a b hab hba
        have := strLE_antisymm a.data b.data hab hba
        cases a; cases b; simp_all
      rw [e _ _ (l1.2 _ (hperm.mem_iff.mp l2.1)) (l2.2 _ (hperm.mem_iff.mpr l1.1))]

theorem fedora_getLatestBuild_maximum_witness :
    ((fedora.getLatestBuild (demoSys "a 20200101.n.0 b20200301.3 c 20200201.5" true)
        "http://m/packages/Fedora-Container-Base" "r1" ⟨(), []⟩).1 =
        .error (.new "Unable to find latest build") ↔
      FindAllString fedoraBuildRe "a 20200101.n.0 b20200301.3 c 20200201.5" = []) ∧
    (fedora.getLatestBuild (demoSys "a 20200101.n.0 b20200301.3 c 20200201.5" true)
        "http://m/packages/Fedora-Container-Base" "r1" ⟨(), []⟩).1 = .ok "20200301.3" :=
  ⟨(fedora_getLatestBuild_maximum (demoSys "a 20200101.n.0 b20200301.3 c 20200201.5" true)
      "http://m/packages/Fedora-Container-Base" "r1" "a 20200101.n.0 b20200301.3 c 20200201.5"
      ⟨(), []⟩ _ rfl).1, by decide⟩

/-- C9. On an index page that lists the single build `20200101.10`, whose
build number has two digits, `fedora.getLatestBuild` returns `20200101.1`,
which is not the identifier of a build on the page; and on a page that lists
`20200101.9` and `20200101.10` it returns `20200101.9`. -/
theorem fedora_getLatestBuild_truncates_build_number :
    (fedora.getLatestBuild (demoSys "<a href=\"20200101.10/\">20200101.10/</a>" true)
        "http://m/packages/Fedora-Container-Base" "r1" ⟨(), []⟩).1 = .ok "20200101.1" ∧
    (fedora.getLatestBuild (demoSys "<a href=\"20200101.9/\"></a> <a href=\"20200101.10/\"></a>" true)
        "http://m/packages/Fedora-Container-Base" "r1" ⟨(), []⟩).1 = .ok "20200101.9" := by
  constructor <;> decide

theorem Re.run_lit_mem {l s rest : List Char} (h : rest ∈ (Re.lit l).run s) : s = l ++ rest := by
  simp only [Re.run] at h
  split_ifs at h with hp
  · simp only [List.mem_singleton] at h
    obtain ⟨t, rfl⟩ := List.isPrefixOf_iff_prefix.mp hp
    simp [h]
  · simp at h

theorem Re.run_seq_tail {a b : Re} {s rest x : List Char} (h : rest ∈ (Re.seq a b).run s)
    (hb : ∀ t, rest ∈ b.run t → ∃ pre, t = pre ++ x) : ∃ pre, s = pre ++ x := by
  simp only [Re.run, List.mem_flatMap] at h
  obtain ⟨t, ht, hr⟩ := h
  obtain ⟨pre, rfl⟩ := hb t hr
  obtain ⟨u, rfl⟩ := Re.run_suffix a s _ ht
  exact ⟨u ++ pre, by simp⟩

/-- A match of the stage3 pattern ends with the extension and `">`. -/
theorem gentooRe_match_end (lead arch variant ext : String) (m rest : List Char)
    (h : (gentooRe lead arch variant ext).matchAt (m ++ rest) = some rest) :
    ∃ pre, m = pre ++ (ext ++ "\">").data := by
  have hm := Re.matchAt_mem h
  unfold gentooRe at hm
  have : ∃ pre, m ++ rest = pre ++ ((ext ++ "\">").data ++ rest) := by
    refine Re.run_seq_tail hm fun t1 h1 => Re.run_seq_tail h1 fun t2 h2 =>
      Re.run_seq_tail h2 fun t3 h3 => Re.run_seq_tail h3 fun t4 h4 =>
      Re.run_seq_tail h4 fun t5 h5 => ⟨[], ?_⟩
    simpa using Re.run_lit_mem h5
  obtain ⟨pre, hpre⟩ := this
  refine ⟨pre, ?_⟩
  rw [← List.append_assoc] at hpre
  exact List.append_cancel_right hpre

theorem dropWhile_append_keep {α : Type} (p : α → Bool) (l : List α) (a : α) (r : List α)
    (ha : p a = false) : ∃ q, (l ++ a :: r).dropWhile p = q ++ a :: r := by
  induction l with
  | nil => exact ⟨[], by simp [List.dropWhile, ha]⟩
  | cons x xs ih =>
    by_cases hx : p x = true
    · obtain ⟨q, hq⟩ := ih
      exact ⟨q, by simp [List.dropWhile, hx, hq]⟩
    · exact ⟨x :: xs, by simp [List.dropWhile, hx]⟩

theorem trim_end_aux (p : Char → Bool) (pre mid : List Char) (a z : Char)
    (ha : p a = false) (hz : p z = false) (h1 : p '>' = true) (h2 : p '"' = true) :
    ∃ q, (((pre ++ (a :: mid ++ [z] ++ ['"', '>'])).dropWhile p).reverse.dropWhile p).reverse =
      q ++ (a :: mid ++ [z]) := by
  obtain ⟨q, hq⟩ := dropWhile_append_keep p pre a (mid ++ [z] ++ ['"', '>']) ha
  refine ⟨q, ?_⟩
  have e1 : pre ++ (a :: mid ++ [z] ++ ['"', '>']) = pre ++ a :: (mid ++ [z] ++ ['"', '>']) := by
    simp
  rw [e1, hq]
  have e2 : (q ++ a :: (mid ++ [z] ++ ['"', '>'])).reverse =
      '>' :: '"' :: z :: (mid.reverse ++ a :: q.reverse) := by simp
  rw [e2]
  simp [List.dropWhile, h1, h2, hz]

/-- Trimming quotes and angle brackets off a text that ends with `e`, a quote
and `>` leaves a text that ends with `e`, when `e` starts and ends with other
characters. -/
theorem stringsTrim_end (pre mid : List Char) (a z : Char)
    (ha : "<>\"".data.contains a = false) (hz : "<>\"".data.contains z = false) :
    ∃ q, (stringsTrim (String.mk (pre ++ (a :: mid ++ [z] ++ ['"', '>']))) "<>\"").data =
      q ++ (a :: mid ++ [z]) :=
  trim_end_aux (fun c => "<>\"".data.contains c) pre mid a z ha hz (by decide) (by decide)

theorem getD_zero_mem {α : Type} (l : List α) (d : α) (h : l.length > 0) : l.getD 0 d ∈ l := by
  cases l with
  | nil => simp at h
  | cons x xs => simp

/-- The first match of a stage3 pattern, trimmed, ends with the extension. -/
theorem gentoo_trimmed_end (lead arch variant ext body : String) (mid : List Char) (a z : Char)
    (hext : ext.data = a :: mid ++ [z])
    (ha : "<>\"".data.contains a = false) (hz : "<>\"".data.contains z = false)
    (hlen : (FindAllString (gentooRe lead arch variant ext) body).length > 0) :
    ∃ q, (stringsTrim ((FindAllString (gentooRe lead arch variant ext) body).getD 0 "")
      "<>\"").data = q ++ ext.data := by
  have hmem := getD_zero_mem _ "" hlen
  obtain ⟨_, rest, _, hmatch⟩ := FindAllString_mem _ _ _ hmem
  obtain ⟨pre, hpre⟩ := gentooRe_match_end lead arch variant ext _ rest hmatch
  have e : (ext ++ "\">").data = a :: mid ++ [z] ++ ['"', '>'] := by
    show ext.data ++ "\">".data = _
    rw [hext]
  rw [e] at hpre
  obtain ⟨q, hq⟩ := stringsTrim_end pre mid a z ha hz
  refine ⟨q, ?_⟩
  rw [hext, ← hq, ← hpre]

/-- What `gentoo.getLatestBuild` returns ends in `xz` or in `bz2`. -/
theorem gentoo.getLatestBuild_name (sys : Sys σ) (baseURL arch variant fname : String)
    (st st1 : RunState σ)
    (h : gentoo.getLatestBuild sys baseURL arch variant st = (.ok fname, st1)) :
    ∃ q, fname.data = q ++ ['x', 'z'] ∨ fname.data = q ++ ['b', 'z', '2'] := by
  unfold gentoo.getLatestBuild at h
  simp only [M.bind_apply] at h
  rcases hidx : gentoo.getIndex sys baseURL st with ⟨r, st2⟩
  rw [hidx] at h
  rcases r with e | body
  · simp at h
  rcases body with e | body
  · simp [M.fail] at h
  simp only at h
  have xz : ∀ lead, (FindAllString (gentooRe lead arch variant "xz") body).length > 0 →
      ∃ q, (stringsTrim ((FindAllString (gentooRe lead arch variant "xz") body).getD 0 "")
        "<>\"").data = q ++ ['x', 'z'] := fun lead hl =>
    gentoo_trimmed_end lead arch variant "xz" body [] 'x' 'z' rfl (by decide) (by decide) hl
  have bz : ∀ lead, (FindAllString (gentooRe lead arch variant "bz2") body).length > 0 →
      ∃ q, (stringsTrim ((FindAllString (gentooRe lead arch variant "bz2") body).getD 0 "")
        "<>\"").data = q ++ ['b', 'z', '2'] := fun lead hl =>
    gentoo_trimmed_end lead arch variant "bz2" body ['z'] 'b' '2' rfl (by decide) (by decide) hl
  by_cases hv : variant = ""
  · subst hv
    simp only [ne_eq, not_true_eq_false, if_false] at h
    by_cases h1 : (FindAllString (gentooRe "\"" arch "" "xz") body).length > 0
    · rw [if_pos h1] at h
      simp only [M.pure_apply, Prod.mk.injEq, Except.ok.injEq] at h
      obtain ⟨q, hq⟩ := xz _ h1
      exact ⟨q, Or.inl (by rw [← h.1, hq])⟩
    · rw [if_neg h1] at h
      by_cases h2 : (FindAllString (gentooRe "\">" arch "" "bz2") body).length > 0
      · rw [if_pos h2] at h
        simp only [M.pure_apply, Prod.mk.injEq, Except.ok.injEq] at h
        obtain ⟨q, hq⟩ := bz _ h2
        exact ⟨q, Or.inr (by rw [← h.1, hq])⟩
      · rw [if_neg h2] at h
        simp [M.fail] at h
  · simp only [ne_eq, hv, not_false_eq_true, if_true] at h
    by_cases h1 : (FindAllString (gentooRe "\"" arch variant "xz") body).length > 0
    · rw [if_pos h1] at h
      simp only [M.pure_apply, Prod.mk.injEq, Except.ok.injEq] at h
      obtain ⟨q, hq⟩ := xz _ h1
      exact ⟨q, Or.inl (by rw [← h.1, hq])⟩
    · rw [if_neg h1] at h
      by_cases h2 : (FindAllString (gentooRe "\"" arch variant "bz2") body).length > 0
      · rw [if_pos h2] at h
        simp only [M.pure_apply, Prod.mk.injEq, Except.ok.injEq] at h
        obtain ⟨q, hq⟩ := bz _ h2
        exact ⟨q, Or.inr (by rw [← h.1, hq])⟩
      · rw [if_neg h2] at h
        simp [M.fail] at h

/-! ## Lemmas: what a run emits -/

theorem M.Spec.ret {α : Type} {P : Event → Prop} {Q : α → Prop} {E : GoError → Prop} {a : α}
    (h : Q a) : (M.ret a : M σ α).Spec P Q E := by
  intro st
  refine ⟨⟨[], by simp [M.ret], by simp⟩, ?_, ?_⟩
  · intro b hb; simp only [M.ret, Except.ok.injEq] at hb; exact hb ▸ h
  · intro e he; simp [M.ret] at he

theorem M.Spec.pure {α : Type} {P : Event → Prop} {Q : α → Prop} {E : GoError → Prop} {a : α}
    (h : Q a) : (Pure.pure a : M σ α).Spec P Q E := M.Spec.ret h

theorem M.Spec.fail {α : Type} {P : Event → Prop} {Q : α → Prop} {E : GoError → Prop}
    {e : GoError} (h : E e) : (M.fail e : M σ α).Spec P Q E := by
  intro st
  refine ⟨⟨[], by simp [M.fail], by simp⟩, ?_, ?_⟩
  · intro b hb; simp [M.fail] at hb
  · intro e2 he; simp only [M.fail, Except.error.injEq] at he; exact he ▸ h

theorem M.Spec.bind {α β : Type} {P : Event → Prop} {Q1 : α → Prop} {Q : β → Prop}
    {E : GoError → Prop} {m : M σ α} {f : α → M σ β}
    (hm : m.Spec P Q1 E) (hf : ∀ a, Q1 a → (f a).Spec P Q E) : (m >>= f).Spec P Q E := by
  intro st
  obtain ⟨⟨evs, htr, hP⟩, hQ, hE⟩ := hm st
  rw [M.bind_apply]
  rcases hms : m st with ⟨r, st1⟩
  rw [hms] at htr hQ hE
  cases r with
  | error e =>
    exact ⟨⟨evs, htr, hP⟩, fun a ha => by simp at ha,
      fun e2 he => by simp only [Except.error.injEq] at he; exact he ▸ hE e rfl⟩
  | ok a =>
    obtain ⟨⟨evs2, htr2, hP2⟩, hQ2, hE2⟩ := hf a (hQ a rfl) st1
    refine ⟨⟨evs ++ evs2, ?_, ?_⟩, hQ2, hE2⟩
    · simp only at htr ⊢
      rw [htr2, htr, List.append_assoc]
    · intro e he
      rcases List.mem_append.mp he with h | h
      · exact hP e h
      · exact hP2 e h

theorem M.Spec.onErr {α : Type} {P : Event → Prop} {Q : α → Prop} {E1 E : GoError → Prop}
    {m : M σ α} {wrap : GoError → GoError}
    (hm : m.Spec P Q E1) (hw : ∀ e, E1 e → E (wrap e)) : (m.onErr wrap).Spec P Q E := by
  intro st
  obtain ⟨⟨evs, htr, hP⟩, hQ, hE⟩ := hm st
  unfold M.onErr
  rcases hms : m st with ⟨r, st1⟩
  rw [hms] at htr hQ hE
  cases r with
  | error e =>
    exact ⟨⟨evs, htr, hP⟩, fun a ha => by simp at ha,
      fun e2 he => by simp only [Except.error.injEq] at he; exact he ▸ hw e (hE e rfl)⟩
  | ok a =>
    exact ⟨⟨evs, htr, hP⟩, fun b hb => hQ b hb, fun e2 he => by simp at he⟩

theorem M.Spec.one {α : Type} {P : Event → Prop} {m : M σ α}
    (h : ∀ st, ∃ ev, (m st).2.trace = st.trace ++ [ev] ∧ P ev) :
    m.Spec P (fun _ => True) (fun _ => True) := by
  intro st
  obtain ⟨ev, htr, hP⟩ := h st
  exact ⟨⟨[ev], htr, by simpa using hP⟩, fun _ _ => trivial, fun _ _ => trivial⟩

theorem Sys.Get_spec (sys : Sys σ) (url : String) (P : Event → Prop)
    (h : ∀ r, P (.httpGet url r)) : (sys.Get url).Spec P (fun _ => True) (fun _ => True) :=
  M.Spec.one fun _ => ⟨_, rfl, h _⟩

theorem Sys.DownloadHash_spec (sys : Sys σ) (file checksum : String) (hf : Option HashAlg)
    (P : Event → Prop) (h : ∀ r, P (.downloadHash file checksum hf r)) :
    (sys.DownloadHash file checksum hf).Spec P (fun _ => True) (fun _ => True) :=
  M.Spec.one fun _ => ⟨_, rfl, h _⟩

theorem Sys.VerifyFile_spec (sys : Sys σ) (a : Path) (b : Option Path) (P : Event → Prop)
    (h : ∀ r, P (.verifyFile a b r)) : (sys.VerifyFile a b).Spec P (fun _ => True) (fun _ => True) :=
  M.Spec.one fun _ => ⟨_, rfl, h _⟩

theorem Sys.Unpack_spec (sys : Sys σ) (a b : Path) (P : Event → Prop)
    (h : ∀ r, P (.unpack a b r)) : (sys.Unpack a b).Spec P (fun _ => True) (fun _ => True) :=
  M.Spec.one fun _ => ⟨_, rfl, h _⟩

theorem Sys.Open_spec (sys : Sys σ) (a : Path) (P : Event → Prop)
    (h : ∀ r, P (.readFile a r)) : (sys.Open a).Spec P (fun _ => True) (fun _ => True) :=
  M.Spec.one fun _ => ⟨_, rfl, h _⟩

theorem Sys.Glob_spec (sys : Sys σ) (a : Path) (P : Event → Prop)
    (h : ∀ r, P (.glob a r)) : (sys.Glob a).Spec P (fun _ => True) (fun _ => True) :=
  M.Spec.one fun _ => ⟨_, rfl, h _⟩

theorem Sys.RemoveAll_spec (sys : Sys σ) (a : Path) (P : Event → Prop)
    (h : ∀ r, P (.removeAll a r)) : (sys.RemoveAll a).Spec P (fun _ => True) (fun _ => True) :=
  M.Spec.one fun _ => ⟨_, rfl, h _⟩

theorem Sys.Rename_spec (sys : Sys σ) (a b : Path) (P : Event → Prop)
    (h : ∀ r, P (.rename a b r)) : (sys.Rename a b).Spec P (fun _ => True) (fun _ => True) :=
  M.Spec.one fun _ => ⟨_, rfl, h _⟩

theorem retryLoop_succ {α : Type} (f : M σ α) (n : Nat) (st : RunState σ) :
    retryLoop f (n + 1) st =
      match f st with
      | (.ok a, st1) => (.ok a, st1)
      | (.error _, st1) => retryLoop f n st1 := rfl

theorem retryLoop_spec {α : Type} {P : Event → Prop} {Q : α → Prop} {E : GoError → Prop}
    {f : M σ α} (hf : f.Spec P Q E) : ∀ n, (retryLoop f n).Spec P Q E
  | 0 => hf
  | n + 1 => by
    intro st
    obtain ⟨⟨evs, htr, hP⟩, hQ, hE⟩ := hf st
    rw [retryLoop_succ]
    rcases hfs : f st with ⟨r, st1⟩
    rw [hfs] at htr hQ hE
    cases r with
    | ok a => exact ⟨⟨evs, htr, hP⟩, hQ, fun e he => by simp at he⟩
    | error e =>
      obtain ⟨⟨evs2, htr2, hP2⟩, hQ2, hE2⟩ := retryLoop_spec hf n st1
      refine ⟨⟨evs ++ evs2, ?_, ?_⟩, hQ2, hE2⟩
      · simp only at htr ⊢
        rw [htr2, htr, List.append_assoc]
      · intro e he
        rcases List.mem_append.mp he with h | h
        · exact hP e h
        · exact hP2 e h

/-- The index fetch of gentoo makes `http.Get` calls only, and its errors are
wrapped. -/
theorem gentoo.getIndex_spec (sys : Sys σ) (baseURL : String) :
    (gentoo.getIndex sys baseURL).Spec (fun e => e.isHttpGet = true) (fun _ => True)
      (fun e => e ≠ keysRequired) := by
  unfold gentoo.getIndex Retry
  refine retryLoop_spec (M.Spec.onErr (Sys.Get_spec sys _ _ (by intro _; rfl)) ?_) _
  intro e _; simp [keysRequired]

theorem gentoo.getLatestBuild_spec (sys : Sys σ) (baseURL arch variant : String) :
    (gentoo.getLatestBuild sys baseURL arch variant).Spec (fun e => e.isHttpGet = true)
      (fun _ => True) (fun e => e ≠ keysRequired) := by
  unfold gentoo.getLatestBuild
  refine M.Spec.bind (gentoo.getIndex_spec sys baseURL) fun resp _ => ?_
  cases resp with
  | error e => exact M.Spec.fail (by simp [keysRequired])
  | ok body =>
    simp only
    split_ifs <;> first
      | exact M.Spec.pure trivial
      | exact M.Spec.fail (by simp [keysRequired])

/-! ## Lemmas: URLs -/

theorem altLinux.baseURL_on_source (s : common) :
    ∃ rest, altLinux.baseURL s = s.definition.Source.URL ++ rest :=
  ⟨_, by simp only [altLinux.baseURL, String.append_assoc]; rfl⟩

theorem gentoo.tarball_on_source (s : common) (fname : String) :
    ∃ rest, gentoo.baseURL s ++ "/" ++ fname = s.definition.Source.URL ++ rest := by
  unfold gentoo.baseURL
  split_ifs
  · exact ⟨_, by simp only [String.append_assoc]; rfl⟩
  · exact ⟨_, by simp only [String.append_assoc]; rfl⟩

theorem isPrefixOf_cons_head (p : List Char) (z : Char) (rest : List Char)
    (h : p.isPrefixOf (z :: rest) = true) : p = [] ∨ p.head? = some z := by
  cases p with
  | nil => exact Or.inl rfl
  | cons a as =>
    right
    simp only [List.isPrefixOf, Bool.and_eq_true, beq_iff_eq] at h
    simp [h.1]

/-- A URL whose last character is `z` or `2` ends like no checksum manifest
and no signature file. -/
theorem no_trust_suffix (url : String) (q : List Char) (z : Char) (h : url.data = q ++ [z])
    (hz : z = 'z' ∨ z = '2') :
    trustFileSuffixes.any (fun suffix => stringsHasSuffix url suffix) = false := by
  rw [List.any_eq_false]
  intro suffix hs
  have key : suffix.data.reverse ≠ [] ∧ suffix.data.reverse.head? ≠ some 'z' ∧
      suffix.data.reverse.head? ≠ some '2' := by
    revert suffix; decide
  intro hp
  unfold stringsHasSuffix at hp
  rw [h, List.reverse_append] at hp
  rcases isPrefixOf_cons_head _ _ _ hp with h1 | h1
  · exact key.1 h1
  · rcases hz with rfl | rfl
    · exact key.2.1 h1
    · exact key.2.2 h1

theorem altLinux_primary_no_trust_suffix (sys : Sys σ) (s : common) :
    trustFileSuffixes.any (fun suffix =>
      stringsHasSuffix (altLinux.baseURL s ++ altLinux.fname sys s) suffix) = false := by
  refine no_trust_suffix _ ((altLinux.baseURL s ++ ("alt-" ++ sys.toLower s.definition.Image.Release ++
    "-rootfs-systemd-" ++ altLinux.arch s)).data ++ ['.', 't', 'a', 'r', '.', 'x']) 'z' ?_ (Or.inl rfl)
  simp only [altLinux.fname, String.data_append, List.append_assoc]
  rfl

/-! ## C1 and C3 -/

theorem wrapf_ne_keysRequired (f : String) (a : List String) (e : GoError) :
    GoError.wrapf f a e ≠ keysRequired := by simp [keysRequired]

theorem M.Spec.call {α : Type} {P : Event → Prop} {m : M σ α}
    (h : m.Spec P (fun _ => True) (fun _ => True)) (f : String) (a : List String) :
    (m.onErr (.wrapf f a)).Spec P (fun _ => True) (fun e => e ≠ keysRequired) :=
  M.Spec.onErr h fun e _ => wrapf_ne_keysRequired f a e

theorem altLinux_Run_skip_spec (sys : Sys σ) (s : common)
    (hskip : s.definition.Source.SkipVerification = true) :
    (altLinux.Run sys s).Spec (fun e => e.withoutTrustFiles none = true) (fun _ => True)
      (fun e => e ≠ keysRequired) := by
  unfold altLinux.Run
  simp only [hskip, Bool.not_true, Bool.false_eq_true, if_false]
  cases sys.parseURL (altLinux.baseURL s) with
  | error e => exact M.Spec.fail (wrapf_ne_keysRequired _ _ _)
  | ok scheme =>
    simp only
    refine M.Spec.bind (M.Spec.pure (Q := fun _ => True) trivial) fun _ _ => ?_
    refine M.Spec.bind (M.Spec.call (Sys.DownloadHash_spec sys _ _ _ _ ?_) _ _) fun fpath _ => ?_
    · intro r
      simp [Event.withoutTrustFiles, altLinux_primary_no_trust_suffix]
    refine M.Spec.bind (M.Spec.call (Sys.Unpack_spec sys _ _ _ (by intro _; rfl)) _ _)
      fun _ _ => ?_
    exact M.Spec.pure trivial

/-- The resolver of gentoo asks, with `http.Get`, for its index page only, and
what it returns ends in `xz` or in `bz2`. -/
theorem gentoo.getLatestBuild_spec_name (sys : Sys σ) (baseURL arch variant : String) :
    (gentoo.getLatestBuild sys baseURL arch variant).Spec
      (fun e => e.withoutTrustFiles (some baseURL) = true)
      (fun fname => ∃ q, fname.data = q ++ ['x', 'z'] ∨ fname.data = q ++ ['b', 'z', '2'])
      (fun e => e ≠ keysRequired) := by
  have hidx : (gentoo.getIndex sys baseURL).Spec
      (fun e => e.withoutTrustFiles (some baseURL) = true) (fun _ => True)
      (fun e => e ≠ keysRequired) := by
    unfold gentoo.getIndex Retry
    exact retryLoop_spec (M.Spec.call (Sys.Get_spec sys _ _
      (by intro _; simp [Event.withoutTrustFiles])) _ _) _
  have hall : (gentoo.getLatestBuild sys baseURL arch variant).Spec
      (fun e => e.withoutTrustFiles (some baseURL) = true) (fun _ => True)
      (fun e => e ≠ keysRequired) := by
    unfold gentoo.getLatestBuild
    refine M.Spec.bind hidx fun resp _ => ?_
    cases resp with
    | error e => exact M.Spec.fail (wrapf_ne_keysRequired _ _ _)
    | ok body =>
      simp only
      split_ifs <;> first
        | exact M.Spec.pure trivial
        | exact M.Spec.fail (by simp [keysRequired])
  intro st
  obtain ⟨htr, _, hE⟩ := hall st
  exact ⟨htr, fun fname hf =>
    gentoo.getLatestBuild_name sys baseURL arch variant fname st _ (Prod.ext hf rfl), hE⟩

theorem gentoo_primary_no_trust_suffix (base fname : String)
    (h : ∃ q, fname.data = q ++ ['x', 'z'] ∨ fname.data = q ++ ['b', 'z', '2']) :
    trustFileSuffixes.any (fun suffix => stringsHasSuffix (base ++ "/" ++ fname) suffix) = false := by
  obtain ⟨q, h | h⟩ := h
  · refine no_trust_suffix _ ((base ++ "/").data ++ q ++ ['x']) 'z' ?_ (Or.inl rfl)
    simp [String.data_append, h]
  · refine no_trust_suffix _ ((base ++ "/").data ++ q ++ ['b', 'z']) '2' ?_ (Or.inr rfl)
    simp [String.data_append, h]

/-- With skip-verification true and names that stand for themselves in the
stage3 pattern, `Run` of gentoo asks for its index page and for no trust file. -/
theorem gentoo_Run_skip_spec (sys : Sys σ) (s : common)
    (hskip : s.definition.Source.SkipVerification = true)
    (_harch : regexpLiteral s.definition.Image.ArchitectureMapped = true)
    (_hvariant : regexpLiteral s.definition.Source.Variant = true) :
    (gentoo.Run sys s).Spec (fun e => e.withoutTrustFiles (some (gentoo.baseURL s)) = true)
      (fun _ => True) (fun e => e ≠ keysRequired) := by
  unfold gentoo.Run
  simp only [hskip, Bool.not_true, Bool.false_eq_true, false_and, if_false, if_true]
  refine M.Spec.bind (M.Spec.onErr (gentoo.getLatestBuild_spec_name sys _ _ _)
    fun e _ => wrapf_ne_keysRequired _ _ e) fun fname hname => ?_
  cases sys.parseURL (gentoo.baseURL s ++ "/" ++ fname) with
  | error e => exact M.Spec.fail (wrapf_ne_keysRequired _ _ _)
  | ok scheme =>
    simp only
    refine M.Spec.bind (M.Spec.call (Sys.DownloadHash_spec sys _ _ _ _ ?_) _ _) fun fpath _ => ?_
    · intro r
      simp [Event.withoutTrustFiles, gentoo_primary_no_trust_suffix _ _ hname]
    refine M.Spec.bind (M.Spec.pure (Q := fun _ => True) trivial) fun _ _ => ?_
    refine M.Spec.bind (M.Spec.call (Sys.Unpack_spec sys _ _ _ (by intro _; rfl)) _ _)
      fun _ _ => ?_
    refine M.Spec.bind (M.Spec.call (Sys.DownloadHash_spec sys _ _ _ _ ?_) _ _) fun fpath2 _ => ?_
    · intro r
      have : trustFileSuffixes.any (fun suffix => stringsHasSuffix
          (s.definition.Source.URL ++ "/snapshots" ++ "/" ++ "portage-latest.tar.xz") suffix) =
          false :=
        gentoo_primary_no_trust_suffix _ "portage-latest.tar.xz"
          ⟨"portage-latest.tar.".data, Or.inl rfl⟩
      simp [Event.withoutTrustFiles, this]
    refine M.Spec.bind (M.Spec.pure (Q := fun _ => True) trivial) fun _ _ => ?_
    refine M.Spec.bind (M.Spec.call (Sys.Unpack_spec sys _ _ _ (by intro _; rfl)) _ _)
      fun _ _ => ?_
    refine M.Spec.bind (M.Spec.call (Sys.RemoveAll_spec sys _ _ (by intro _; rfl)) _ _)
      fun _ _ => ?_
    refine M.Spec.bind (M.Spec.call (Sys.Rename_spec sys _ _ _ (by intro _; rfl)) _ _)
      fun _ _ => ?_
    exact M.Spec.pure trivial

/-- C3, as the code has it. With skip-verification true and an architecture
and a variant name without regexp metacharacters, whatever the keys and the
scheme: `Run` of altLinux makes no `http.Get`, and the only URL `Run` of gentoo
asks for with `http.Get` is its index page, whose URL ends in the architecture
or variant name; neither calls `DownloadHash` on a URL that ends in
`SHA256SUMS`, `SHA256SUMS.gpg`, `.DIGESTS`, `.DIGESTS.asc` or `.gpgsig`, both
pass the empty checksum URL to every `DownloadHash`, never call `VerifyFile`,
and never fail with the keys-required error. -/
theorem skip_verification_bypass (sys : Sys σ) (s : common) (st : RunState σ)
    (hskip : s.definition.Source.SkipVerification = true)
    (harch : regexpLiteral s.definition.Image.ArchitectureMapped = true)
    (hvariant : regexpLiteral s.definition.Source.Variant = true) :
    ((∃ evs, (altLinux.Run sys s st).2.trace = st.trace ++ evs ∧
        ∀ e ∈ evs, e.withoutTrustFiles none = true) ∧
      (altLinux.Run sys s st).1 ≠ .error keysRequired) ∧
    ((∃ evs, (gentoo.Run sys s st).2.trace = st.trace ++ evs ∧
        ∀ e ∈ evs, e.withoutTrustFiles (some (gentoo.baseURL s)) = true) ∧
      (gentoo.Run sys s st).1 ≠ .error keysRequired) := by
  obtain ⟨h1, _, h3⟩ := altLinux_Run_skip_spec sys s hskip st
  obtain ⟨g1, _, g3⟩ := gentoo_Run_skip_spec sys s hskip harch hvariant st
  exact ⟨⟨h1, fun h => h3 _ h rfl⟩, ⟨g1, fun h => g3 _ h rfl⟩⟩

theorem skip_verification_bypass_witness :
    (∃ evs, (gentoo.Run (demoSys "<a href=\"stage3-amd64-20200101.tar.xz\">" true)
        (demoCommon "http://m" [] true) ⟨(), []⟩).2.trace = [] ++ evs ∧
        ∀ e ∈ evs, e.withoutTrustFiles (some (gentoo.baseURL (demoCommon "http://m" [] true))) =
          true) ∧
    (gentoo.Run (demoSys "<a href=\"stage3-amd64-20200101.tar.xz\">" true)
      (demoCommon "http://m" [] true) ⟨(), []⟩).1 = .ok () :=
  ⟨(skip_verification_bypass (demoSys "<a href=\"stage3-amd64-20200101.tar.xz\">" true)
      (demoCommon "http://m" [] true) ⟨(), []⟩ rfl (by decide) (by decide)).2.1, by decide⟩

/-- C3 fails as stated: with skip-verification true and the variant
`SHA256SUMS`, the first call of `Run` of gentoo is the `http.Get` of
`http://m/releases/amd64/autobuilds/current-stage3-amd64-SHA256SUMS`, a URL
that ends in `SHA256SUMS`. -/
theorem skip_verification_bypass_counterexample :
    (demoCommonVariant "http://m" [] "SHA256SUMS" true).definition.Source.SkipVerification =
      true ∧
    (gentoo.Run (demoSys "<a href=\"stage3-amd64-SHA256SUMS-20200101.tar.xz\">" true)
      (demoCommonVariant "http://m" [] "SHA256SUMS" true) ⟨(), []⟩).2.trace.head? =
      some (.httpGet "http://m/releases/amd64/autobuilds/current-stage3-amd64-SHA256SUMS"
        (.ok (.ok "<a href=\"stage3-amd64-SHA256SUMS-20200101.tar.xz\">"))) ∧
    (gentoo.Run (demoSys "<a href=\"stage3-amd64-SHA256SUMS-20200101.tar.xz\">" true)
      (demoCommonVariant "http://m" [] "SHA256SUMS" true) ⟨(), []⟩).2.trace.any
      Event.requestsTrustFile = true := by
  decide

/-- C1, as the code has it. With skip-verification false, no key and a source
URL whose scheme is not https: `Run` of altLinux makes no call at all and,
when `url.Parse` accepts the URL, returns the keys-required error; `Run` of
gentoo makes no call but the `http.Get` of its version resolution (no
`DownloadHash`, no `Unpack`), returns the keys-required error when
`getLatestBuild` found a build and `url.Parse` accepts the URL, and returns
the wrapped resolution error when `getLatestBuild` failed. -/
theorem trust_floor (sys : Sys σ) (s : common) (st : RunState σ)
    (hskip : s.definition.Source.SkipVerification = false)
    (hkeys : s.definition.Source.Keys = [])
    (hscheme : ∀ rest scheme, sys.parseURL (s.definition.Source.URL ++ rest) = .ok scheme →
      scheme ≠ "https") :
    ((altLinux.Run sys s st).2 = st ∧
      (∀ scheme, sys.parseURL (altLinux.baseURL s) = .ok scheme →
        (altLinux.Run sys s st).1 = .error keysRequired)) ∧
    ((∃ evs, (gentoo.Run sys s st).2.trace = st.trace ++ evs ∧ ∀ e ∈ evs, e.isHttpGet = true) ∧
      (∀ fname st1 scheme,
        gentoo.getLatestBuild sys (gentoo.baseURL s) s.definition.Image.ArchitectureMapped
          s.definition.Source.Variant st = (.ok fname, st1) →
        sys.parseURL (gentoo.baseURL s ++ "/" ++ fname) = .ok scheme →
        gentoo.Run sys s st = (.error keysRequired, st1)) ∧
      (∀ err st1,
        gentoo.getLatestBuild sys (gentoo.baseURL s) s.definition.Image.ArchitectureMapped
          s.definition.Source.Variant st = (.error err, st1) →
        gentoo.Run sys s st =
          (.error (.wrapf "Failed to get latest build: %w" [] err), st1))) := by
  have halt : ∀ scheme, sys.parseURL (altLinux.baseURL s) = .ok scheme → scheme ≠ "https" := by
    intro scheme h
    obtain ⟨rest, hr⟩ := altLinux.baseURL_on_source s
    rw [hr] at h
    exact hscheme rest scheme h
  have hgen : ∀ fname scheme, sys.parseURL (gentoo.baseURL s ++ "/" ++ fname) = .ok scheme →
      scheme ≠ "https" := by
    intro fname scheme h
    obtain ⟨rest, hr⟩ := gentoo.tarball_on_source s fname
    rw [hr] at h
    exact hscheme rest scheme h
  have galt : ∀ r st1,
      gentoo.getLatestBuild sys (gentoo.baseURL s) s.definition.Image.ArchitectureMapped
        s.definition.Source.Variant st = (r, st1) →
      gentoo.Run sys s st =
        (match r with
          | .error err => .error (.wrapf "Failed to get latest build: %w" [] err)
          | .ok fname =>
            match sys.parseURL (gentoo.baseURL s ++ "/" ++ fname) with
            | .error err =>
              .error (.wrapf "Failed to parse %q: %w" [gentoo.baseURL s ++ "/" ++ fname] err)
            | .ok _ => .error keysRequired, st1) := by
    intro r st1 h
    unfold gentoo.Run
    simp only [M.bind_apply, M.onErr, h]
    cases r with
    | error err => rfl
    | ok fname =>
      simp only
      cases hp : sys.parseURL (gentoo.baseURL s ++ "/" ++ fname) with
      | error err => rfl
      | ok scheme =>
        simp [hskip, hkeys, hgen fname scheme hp, M.fail, keysRequired]
  refine ⟨⟨?_, ?_⟩, ?_, ?_, ?_⟩
  · unfold altLinux.Run
    cases hp : sys.parseURL (altLinux.baseURL s) with
    | error err => rfl
    | ok scheme => simp [hskip, hkeys, halt scheme hp, M.bind_apply, M.fail]
  · intro scheme hp
    unfold altLinux.Run
    simp [hp, hskip, hkeys, halt scheme hp, M.bind_apply, M.fail, keysRequired]
  · obtain ⟨⟨evs, htr, hP⟩, _, _⟩ := gentoo.getLatestBuild_spec sys (gentoo.baseURL s)
      s.definition.Image.ArchitectureMapped s.definition.Source.Variant st
    refine ⟨evs, ?_, hP⟩
    rw [galt _ _ rfl]
    exact htr
  · intro fname st1 scheme h hp
    rw [galt _ _ h]
    simp [hp]
  · intro err st1 h
    rw [galt _ _ h]

theorem demoSys_scheme (body : String) (valid : Bool) (rest scheme : String)
    (h : (demoSys body valid).parseURL ("http://m" ++ rest) = .ok scheme) : scheme ≠ "https" := by
  have e : (demoSys body valid).parseURL ("http://m" ++ rest) = .ok "http" := by
    show Except.ok (String.mk (("http://m" ++ rest).data.takeWhile (fun c => c ≠ ':'))) = _
    rw [String.data_append]
    rfl
  rw [e] at h
  simp only [Except.ok.injEq] at h
  rw [← h]; decide

theorem trust_floor_witness :
    (altLinux.Run (demoSys "<a href=\"stage3-amd64-20200101.tar.xz\">" true)
      (demoCommon "http://m" [] false) ⟨(), []⟩).2 = ⟨(), []⟩ ∧
    (gentoo.Run (demoSys "<a href=\"stage3-amd64-20200101.tar.xz\">" true)
      (demoCommon "http://m" [] false) ⟨(), []⟩).1 = .error keysRequired :=
  ⟨(trust_floor (demoSys "<a href=\"stage3-amd64-20200101.tar.xz\">" true)
      (demoCommon "http://m" [] false) ⟨(), []⟩ rfl rfl (demoSys_scheme _ _)).1.1, by decide⟩

/-- C1 fails as stated: with skip-verification false, no key and the source
URL `http://m`, on an index page without a stage3 link `Run` of gentoo returns
the wrapped resolution error, not the keys-required error. -/
theorem trust_floor_counterexample :
    (demoCommon "http://m" [] false).definition.Source.SkipVerification = false ∧
    (demoCommon "http://m" [] false).definition.Source.Keys = [] ∧
    (demoSys "<html></html>" true).parseURL "http://m" = .ok "http" ∧
    (gentoo.Run (demoSys "<html></html>" true) (demoCommon "http://m" [] false) ⟨(), []⟩).1 =
      .error (.wrapf "Failed to get latest build: %w" [] (.new "Failed to get match")) ∧
    (gentoo.Run (demoSys "<html></html>" true) (demoCommon "http://m" [] false) ⟨(), []⟩).1 ≠
      .error keysRequired := by
  decide

theorem altLinux_Run_keys (sys : Sys σ) (s : common) (st : RunState σ)
    (hskip : s.definition.Source.SkipVerification = false)
    (hkeys : s.definition.Source.Keys ≠ []) :
    ∃ evs, (altLinux.Run sys s st).2.trace = st.trace ++ evs ∧
      precededBy (Event.fetched (altLinux.baseURL s ++ "SHA256SUMS" ++ ".gpg")) Event.usesManifest evs = true ∧
      precededBy (Event.fetched (altLinux.baseURL s ++ "SHA256SUMS")) Event.usesManifest evs = true ∧
      precededBy Event.isValidSignature Event.usesManifest evs = true ∧
      precededBy Event.isValidSignature Event.isUnpack evs = true ∧
      ((∃ e ∈ evs, e.isInvalidSignature = true) →
        (altLinux.Run sys s st).1 = .error (.errorf "Invalid signature for %q" ["SHA256SUMS"]) ∧
        evs.all (fun e => !e.usesManifest && !e.isUnpack) = true) ∧
      ((altLinux.Run sys s st).1 = .ok () → ∃ fpath p2 p3,
        evs = [.downloadHash (altLinux.baseURL s ++ "SHA256SUMS" ++ ".gpg") "" none (.ok fpath),
          .downloadHash (altLinux.baseURL s ++ "SHA256SUMS") "" none (.ok p2),
          .verifyFile (fpath.Join "SHA256SUMS") (some (fpath.Join "SHA256SUMS.gpg")) (.ok true),
          .downloadHash (altLinux.baseURL s ++ altLinux.fname sys s)
            (altLinux.baseURL s ++ "SHA256SUMS") (some .sha256) (.ok p3),
          .unpack (p3.Join (altLinux.fname sys s)) s.rootfsDir none]) := by
  have hk : s.definition.Source.Keys.length ≠ 0 := by
    simpa [List.length_eq_zero] using hkeys
  unfold altLinux.Run
  cases hp : sys.parseURL (altLinux.baseURL s) with
  | error err => exact ⟨[], by simp [M.fail], by simp [precededBy, M.fail]⟩
  | ok scheme =>
    simp only [hskip, hk, M.bind_apply, M.onErr, Sys.DownloadHash, Sys.VerifyFile, Sys.Unpack,
      M.pure_apply, M.fail, Bool.not_false, ne_eq, not_false_eq_true, if_true]
    rcases h1 : sys.downloadHash st.world (altLinux.baseURL s ++ "SHA256SUMS" ++ ".gpg") "" none
      with ⟨r1, w1⟩
    rcases r1 with e1 | fpath
    · exact ⟨_, rfl, by
        simp [precededBy, Event.fetched, Event.usesManifest, Event.isValidSignature,
          Event.isUnpack, Event.isInvalidSignature]⟩
    simp only
    rcases h2 : sys.downloadHash w1 (altLinux.baseURL s ++ "SHA256SUMS") "" none with ⟨r2, w2⟩
    rcases r2 with e2 | p2
    · exact ⟨_, by simp only [List.append_assoc, List.singleton_append]; rfl, by
        simp [precededBy, Event.fetched, Event.usesManifest, Event.isValidSignature,
          Event.isUnpack, Event.isInvalidSignature]⟩
    simp only
    rcases h3 : sys.verifyFile w2 (fpath.Join "SHA256SUMS") (some (fpath.Join "SHA256SUMS.gpg"))
      with ⟨r3, w3⟩
    rcases r3 with e3 | valid
    · exact ⟨_, by simp only [List.append_assoc, List.singleton_append]; rfl, by
        simp [precededBy, Event.fetched, Event.usesManifest, Event.isValidSignature,
          Event.isUnpack, Event.isInvalidSignature]⟩
    cases valid
    · exact ⟨_, by
        simp only [Bool.not_false, if_true, M.bind_apply, M.fail, List.append_assoc,
          List.singleton_append]; rfl, by
        simp [precededBy, Event.fetched, Event.usesManifest, Event.isValidSignature,
          Event.isUnpack, Event.isInvalidSignature, M.bind_apply, M.fail]⟩
    simp only [Bool.not_true, Bool.false_eq_true, if_false, M.bind_apply, M.pure_apply, M.onErr,
      Sys.DownloadHash, Sys.Unpack]
    rcases h4 : sys.downloadHash w3 (altLinux.baseURL s ++ altLinux.fname sys s)
      (altLinux.baseURL s ++ "SHA256SUMS") (some .sha256) with ⟨r4, w4⟩
    rcases r4 with e4 | p3
    · exact ⟨_, by simp only [List.append_assoc, List.singleton_append]; rfl, by
        simp [precededBy, Event.fetched, Event.usesManifest, Event.isValidSignature,
          Event.isUnpack, Event.isInvalidSignature]⟩
    simp only
    rcases h5 : sys.unpack w4 (p3.Join (altLinux.fname sys s)) s.rootfsDir with ⟨r5, w5⟩
    rcases r5 with _ | e5
    · exact ⟨_, by simp only [List.append_assoc, List.singleton_append]; rfl, by
        simp [precededBy, Event.fetched, Event.usesManifest, Event.isValidSignature,
          Event.isUnpack, Event.isInvalidSignature, errToExcept]⟩
    · exact ⟨_, by simp only [List.append_assoc, List.singleton_append]; rfl, by
        simp [precededBy, Event.fetched, Event.usesManifest, Event.isValidSignature,
          Event.isUnpack, Event.isInvalidSignature, errToExcept]⟩

/-! ## fedora makes no verification call -/

theorem fedora_getLatestBuild_unverified (sys : Sys σ) (URL release : String) :
    (fedora.getLatestBuild sys URL release).Spec (fun e => e.unverified = true) (fun _ => True)
      (fun _ => True) := by
  unfold fedora.getLatestBuild fedora.getIndex Retry
  refine M.Spec.bind (retryLoop_spec (M.Spec.onErr (Sys.Get_spec sys _ _ (by intro _; rfl))
    (fun _ _ => trivial)) _) fun body _ => ?_
  cases body with
  | error e => exact M.Spec.fail trivial
  | ok content =>
    simp only
    split_ifs
    · exact M.Spec.fail trivial
    · exact M.Spec.pure trivial

theorem fedora_unpackLayerList_unverified (sys : Sys σ) (rootfsDir : Path) :
    ∀ (layers : List String) (acc : List Path),
      (fedora.unpackLayerList sys rootfsDir layers acc).Spec (fun e => e.unverified = true)
        (fun _ => True) (fun _ => True)
  | [], _ => M.Spec.ret trivial
  | layer :: rest, acc => by
    unfold fedora.unpackLayerList
    exact M.Spec.bind (M.Spec.onErr (Sys.Unpack_spec sys _ _ _ (by intro _; rfl))
      (fun _ _ => trivial)) fun _ _ => fedora_unpackLayerList_unverified sys rootfsDir rest _

theorem fedora_unpackManifests_unverified (sys : Sys σ) (rootfsDir : Path) :
    ∀ (manifests : List Manifest) (acc : List Path),
      (fedora.unpackManifests sys rootfsDir manifests acc).Spec (fun e => e.unverified = true)
        (fun _ => True) (fun _ => True)
  | [], _ => M.Spec.ret trivial
  | m :: rest, acc => by
    unfold fedora.unpackManifests
    exact M.Spec.bind (fedora_unpackLayerList_unverified sys rootfsDir _ _)
      fun _ _ => fedora_unpackManifests_unverified sys rootfsDir rest _

theorem fedora_removePaths_unverified (sys : Sys σ) :
    ∀ (paths : List Path),
      (fedora.removePaths sys paths).Spec (fun e => e.unverified = true)
        (fun _ => True) (fun _ => True)
  | [] => M.Spec.ret trivial
  | f :: rest => by
    intro st
    obtain ⟨⟨evs, htr, hP⟩, _, _⟩ := fedora_removePaths_unverified sys rest (sys.RemoveAll f st).2
    refine ⟨⟨Event.removeAll f (sys.removeAll st.world f).1 :: evs, ?_, ?_⟩,
      fun _ _ => trivial, fun _ _ => trivial⟩
    · show (fedora.removePaths sys rest (sys.RemoveAll f st).2).2.trace = _
      rw [htr]
      simp only [Sys.RemoveAll, List.append_assoc, List.singleton_append]
    · intro e he
      rcases List.mem_cons.mp he with rfl | h
      · rfl
      · exact hP e h

theorem fedora_unpackLayers_unverified (sys : Sys σ) (rootfsDir : Path) :
    (fedora.unpackLayers sys rootfsDir).Spec (fun e => e.unverified = true) (fun _ => True)
      (fun _ => True) := by
  unfold fedora.unpackLayers
  refine M.Spec.bind (M.Spec.onErr (Sys.Open_spec sys _ _ (by intro _; rfl))
    (fun _ _ => trivial)) fun file _ => ?_
  cases file with
  | error e => exact M.Spec.fail trivial
  | ok data =>
    simp only
    cases sys.jsonUnmarshal data with
    | error e => exact M.Spec.fail trivial
    | ok manifests =>
      simp only
      refine M.Spec.bind (fedora_unpackManifests_unverified sys rootfsDir _ _) fun _ _ => ?_
      refine M.Spec.bind (M.Spec.onErr (Sys.Glob_spec sys _ _ (by intro _; rfl))
        (fun _ _ => trivial)) fun _ _ => ?_
      refine M.Spec.bind (M.Spec.onErr (Sys.Glob_spec sys _ _ (by intro _; rfl))
        (fun _ _ => trivial)) fun _ _ => ?_
      exact fedora_removePaths_unverified sys _

theorem fedora_Run_unverified (sys : Sys σ) (s : common) :
    (fedora.Run sys s).Spec (fun e => e.unverified = true) (fun _ => True) (fun _ => True) := by
  unfold fedora.Run
  refine M.Spec.bind (M.Spec.onErr (fedora_getLatestBuild_unverified sys _ _)
    (fun _ _ => trivial)) fun build _ => ?_
  refine M.Spec.bind (M.Spec.onErr (Sys.DownloadHash_spec sys _ _ _ _ (by intro _; rfl))
    (fun _ _ => trivial)) fun fpath _ => ?_
  refine M.Spec.bind (M.Spec.onErr (Sys.Unpack_spec sys _ _ _ (by intro _; rfl))
    (fun _ _ => trivial)) fun _ _ => ?_
  refine M.Spec.bind (M.Spec.onErr (fedora_unpackLayers_unverified sys _)
    (fun _ _ => trivial)) fun _ _ => ?_
  exact M.Spec.pure trivial

theorem precededBy_append_neutral (a b : Event → Bool) (evs0 rest : List Event)
    (h : ∀ e ∈ evs0, e.isHttpGet = true)
    (ha : ∀ e, e.isHttpGet = true → a e = false) (hb : ∀ e, e.isHttpGet = true → b e = false) :
    precededBy a b (evs0 ++ rest) = precededBy a b rest := by
  induction evs0 with
  | nil => rfl
  | cons e es ih =>
    have he := h e (List.mem_cons_self _ _)
    simp only [List.cons_append, precededBy, ha e he, hb e he, Bool.false_eq_true, if_false,
      Bool.not_false, Bool.true_and]
    exact ih fun x hx => h x (List.mem_cons_of_mem _ hx)

theorem any_append_neutral (a : Event → Bool) (evs0 rest : List Event)
    (h : ∀ e ∈ evs0, e.isHttpGet = true) (ha : ∀ e, e.isHttpGet = true → a e = false) :
    (evs0 ++ rest).any a = rest.any a := by
  rw [List.any_append]
  have : evs0.any a = false := by
    rw [List.any_eq_false]
    intro x hx
    simp [ha x (h x hx)]
  simp [this]

theorem isHttpGet_not_valid (e : Event) (h : e.isHttpGet = true) : e.isValidSignature = false := by
  cases e <;> simp_all [Event.isHttpGet, Event.isValidSignature]

theorem isHttpGet_not_invalid (e : Event) (h : e.isHttpGet = true) :
    e.isInvalidSignature = false := by
  cases e <;> simp_all [Event.isHttpGet, Event.isInvalidSignature]

theorem isHttpGet_not_unpack (e : Event) (h : e.isHttpGet = true) : e.isUnpack = false := by
  cases e <;> simp_all [Event.isHttpGet, Event.isUnpack]

/-- The order of gentoo over plain transport: no `Unpack` before a
valid-signature result, and an invalid signature is an error of `Run`. -/
theorem gentoo_Run_verify (sys : Sys σ) (s : common) (st : RunState σ)
    (hskip : s.definition.Source.SkipVerification = false)
    (hscheme : ∀ rest scheme, sys.parseURL (s.definition.Source.URL ++ rest) = .ok scheme →
      scheme ≠ "https") :
    ∃ evs, (gentoo.Run sys s st).2.trace = st.trace ++ evs ∧
      precededBy Event.isValidSignature Event.isUnpack evs = true ∧
      (evs.any Event.isInvalidSignature = true →
        ∃ name, (gentoo.Run sys s st).1 = .error (.errorf "Failed to verify %q" [name])) := by
  obtain ⟨⟨evs0, htr0, hP0⟩, _, _⟩ := gentoo.getLatestBuild_spec sys (gentoo.baseURL s)
    s.definition.Image.ArchitectureMapped s.definition.Source.Variant st
  have hpre : ∀ rest, precededBy Event.isValidSignature Event.isUnpack (evs0 ++ rest) =
      precededBy Event.isValidSignature Event.isUnpack rest := fun rest =>
    precededBy_append_neutral _ _ evs0 rest hP0 isHttpGet_not_valid isHttpGet_not_unpack
  have hany : ∀ rest, (evs0 ++ rest).any Event.isInvalidSignature =
      rest.any Event.isInvalidSignature := fun rest =>
    any_append_neutral _ evs0 rest hP0 isHttpGet_not_invalid
  unfold gentoo.Run
  simp only [M.bind_apply, M.onErr]
  rcases hg : gentoo.getLatestBuild sys (gentoo.baseURL s) s.definition.Image.ArchitectureMapped
    s.definition.Source.Variant st with ⟨r0, st1⟩
  rw [hg] at htr0
  simp only at htr0
  rcases r0 with e0 | fname
  · refine ⟨evs0 ++ [], by simpa using htr0, ?_⟩
    rw [hpre, hany]; simp [precededBy]
  simp only
  cases hp : sys.parseURL (gentoo.baseURL s ++ "/" ++ fname) with
  | error err =>
    refine ⟨evs0 ++ [], by simpa [M.fail] using htr0, ?_⟩
    rw [hpre, hany]; simp [precededBy]
  | ok scheme =>
    have hs : scheme ≠ "https" := by
      obtain ⟨rest, hr⟩ := gentoo.tarball_on_source s fname
      rw [hr] at hp
      exact hscheme rest scheme hp
    simp only [hskip, hs, Bool.not_false, ne_eq, not_false_eq_true, true_and, if_true,
      Bool.false_eq_true, if_false]
    by_cases hk : s.definition.Source.Keys.length = 0
    · refine ⟨evs0 ++ [], by simpa [M.fail, hk] using htr0, ?_⟩
      rw [hpre, hany]; simp [precededBy]
    obtain ⟨w0, tr0⟩ := st1
    simp only at htr0
    subst htr0
    simp only [hk, if_false, M.bind_apply, M.onErr, Sys.DownloadHash, Sys.VerifyFile, Sys.Unpack,
      Sys.RemoveAll, Sys.Rename, M.pure_apply, M.fail]
    rcases h1 : sys.downloadHash w0 (gentoo.baseURL s ++ "/" ++ fname) (gentoo.baseURL s ++ "/" ++ fname ++ ".DIGESTS") (some .sha512) with ⟨r1, w1⟩
    rcases r1 with e1 | fpath
    · exact ⟨evs0 ++ _, by simp only [List.append_assoc, List.singleton_append]; rfl, by
        rw [hpre, hany]
        simp [precededBy, Event.isValidSignature, Event.isUnpack, Event.isInvalidSignature,
          errToExcept, M.bind_apply, M.fail]⟩
    simp only [M.bind_apply, M.onErr, Sys.DownloadHash, Sys.VerifyFile, Sys.Unpack,
      Sys.RemoveAll, Sys.Rename, M.pure_apply, errToExcept, Bool.not_true, Bool.false_eq_true,
      if_false]
    rcases h2 : sys.downloadHash w1 (gentoo.baseURL s ++ "/" ++ fname ++ ".DIGESTS.asc") "" none with ⟨r2, w2⟩
    rcases r2 with e2 | p2
    · exact ⟨evs0 ++ _, by simp only [List.append_assoc, List.singleton_append]; rfl, by
        rw [hpre, hany]
        simp [precededBy, Event.isValidSignature, Event.isUnpack, Event.isInvalidSignature,
          errToExcept, M.bind_apply, M.fail]⟩
    simp only [M.bind_apply, M.onErr, Sys.DownloadHash, Sys.VerifyFile, Sys.Unpack,
      Sys.RemoveAll, Sys.Rename, M.pure_apply, errToExcept, Bool.not_true, Bool.false_eq_true,
      if_false]
    rcases h3 : sys.verifyFile w2 (fpath.Join (fname ++ ".DIGESTS.asc")) none with ⟨r3, w3⟩
    rcases r3 with e3 | valid3
    · exact ⟨evs0 ++ _, by simp only [List.append_assoc, List.singleton_append]; rfl, by
        rw [hpre, hany]
        simp [precededBy, Event.isValidSignature, Event.isUnpack, Event.isInvalidSignature,
          errToExcept, M.bind_apply, M.fail]⟩
    cases valid3
    · exact ⟨evs0 ++ _, by simp only [List.append_assoc, List.singleton_append]; rfl, by
        rw [hpre, hany]
        simp [precededBy, Event.isValidSignature, Event.isUnpack, Event.isInvalidSignature,
          errToExcept, M.bind_apply, M.fail]⟩
    simp only [M.bind_apply, M.onErr, Sys.DownloadHash, Sys.VerifyFile, Sys.Unpack,
      Sys.RemoveAll, Sys.Rename, M.pure_apply, errToExcept, Bool.not_true, Bool.false_eq_true,
      if_false]
    rcases h4 : sys.unpack w3 (fpath.Join fname) s.rootfsDir with ⟨r4, w4⟩
    rcases r4 with _ | e4
    swap
    · exact ⟨evs0 ++ _, by simp only [List.append_assoc, List.singleton_append]; rfl, by
        rw [hpre, hany]
        simp [precededBy, Event.isValidSignature, Event.isUnpack, Event.isInvalidSignature,
          errToExcept, M.bind_apply, M.fail]⟩
    simp only [M.bind_apply, M.onErr, Sys.DownloadHash, Sys.VerifyFile, Sys.Unpack,
      Sys.RemoveAll, Sys.Rename, M.pure_apply, errToExcept, Bool.not_true, Bool.false_eq_true,
      if_false]
    rcases h5 : sys.downloadHash w4 (s.definition.Source.URL ++ "/snapshots" ++ "/" ++ "portage-latest.tar.xz") "" none with ⟨r5, w5⟩
    rcases r5 with e5 | fpath2
    · exact ⟨evs0 ++ _, by simp only [List.append_assoc, List.singleton_append]; rfl, by
        rw [hpre, hany]
        simp [precededBy, Event.isValidSignature, Event.isUnpack, Event.isInvalidSignature,
          errToExcept, M.bind_apply, M.fail]⟩
    simp only [M.bind_apply, M.onErr, Sys.DownloadHash, Sys.VerifyFile, Sys.Unpack,
      Sys.RemoveAll, Sys.Rename, M.pure_apply, errToExcept, Bool.not_true, Bool.false_eq_true,
      if_false]
    rcases h6 : sys.downloadHash w5 (s.definition.Source.URL ++ "/snapshots" ++ "/" ++ "portage-latest.tar.xz" ++ ".gpgsig") "" none with ⟨r6, w6⟩
    rcases r6 with e6 | p6
    · exact ⟨evs0 ++ _, by simp only [List.append_assoc, List.singleton_append]; rfl, by
        rw [hpre, hany]
        simp [precededBy, Event.isValidSignature, Event.isUnpack, Event.isInvalidSignature,
          errToExcept, M.bind_apply, M.fail]⟩
    simp only [M.bind_apply, M.onErr, Sys.DownloadHash, Sys.VerifyFile, Sys.Unpack,
      Sys.RemoveAll, Sys.Rename, M.pure_apply, errToExcept, Bool.not_true, Bool.false_eq_true,
      if_false]
    rcases h7 : sys.verifyFile w6 (fpath2.Join ("portage-latest.tar.xz" ++ ".gpgsig")) none with ⟨r7, w7⟩
    rcases r7 with e7 | valid7
    · exact ⟨evs0 ++ _, by simp only [List.append_assoc, List.singleton_append]; rfl, by
        rw [hpre, hany]
        simp [precededBy, Event.isValidSignature, Event.isUnpack, Event.isInvalidSignature,
          errToExcept, M.bind_apply, M.fail]⟩
    cases valid7
    · exact ⟨evs0 ++ _, by simp only [List.append_assoc, List.singleton_append]; rfl, by
        rw [hpre, hany]
        simp [precededBy, Event.isValidSignature, Event.isUnpack, Event.isInvalidSignature,
          errToExcept, M.bind_apply, M.fail]⟩
    simp only [M.bind_apply, M.onErr, Sys.DownloadHash, Sys.VerifyFile, Sys.Unpack,
      Sys.RemoveAll, Sys.Rename, M.pure_apply, errToExcept, Bool.not_true, Bool.false_eq_true,
      if_false]
    rcases h8 : sys.unpack w7 (fpath2.Join "portage-latest.tar.xz") (s.rootfsDir.Join "var/db/repos") with ⟨r8, w8⟩
    rcases r8 with _ | e8
    swap
    · exact ⟨evs0 ++ _, by simp only [List.append_assoc, List.singleton_append]; rfl, by
        rw [hpre, hany]
        simp [precededBy, Event.isValidSignature, Event.isUnpack, Event.isInvalidSignature,
          errToExcept, M.bind_apply, M.fail]⟩
    simp only [M.bind_apply, M.onErr, Sys.DownloadHash, Sys.VerifyFile, Sys.Unpack,
      Sys.RemoveAll, Sys.Rename, M.pure_apply, errToExcept, Bool.not_true, Bool.false_eq_true,
      if_false]
    rcases h9 : sys.removeAll w8 (s.rootfsDir.Join "var/db/repos/gentoo") with ⟨r9, w9⟩
    rcases r9 with _ | e9
    swap
    · exact ⟨evs0 ++ _, by simp only [List.append_assoc, List.singleton_append]; rfl, by
        rw [hpre, hany]
        simp [precededBy, Event.isValidSignature, Event.isUnpack, Event.isInvalidSignature,
          errToExcept, M.bind_apply, M.fail]⟩
    simp only [M.bind_apply, M.onErr, Sys.DownloadHash, Sys.VerifyFile, Sys.Unpack,
      Sys.RemoveAll, Sys.Rename, M.pure_apply, errToExcept, Bool.not_true, Bool.false_eq_true,
      if_false]
    rcases h10 : sys.rename w9 (s.rootfsDir.Join "var/db/repos/portage") (s.rootfsDir.Join "var/db/repos/gentoo") with ⟨r10, w10⟩
    rcases r10 with _ | e10
    · exact ⟨evs0 ++ _, by simp only [List.append_assoc, List.singleton_append]; rfl, by
        rw [hpre, hany]
        simp [precededBy, Event.isValidSignature, Event.isUnpack, Event.isInvalidSignature,
          errToExcept, M.bind_apply, M.fail]⟩
    · exact ⟨evs0 ++ _, by simp only [List.append_assoc, List.singleton_append]; rfl, by
        rw [hpre, hany]
        simp [precededBy, Event.isValidSignature, Event.isUnpack, Event.isInvalidSignature,
          errToExcept, M.bind_apply, M.fail]⟩

/-- C2, as the code has it. With skip-verification false and at least one key,
whatever the scheme: `Run` of altLinux downloads `SHA256SUMS.gpg` and
`SHA256SUMS` and gets a valid-signature result before any `DownloadHash` that
takes a manifest as hash source and before any `Unpack`; an invalid signature
makes it fail with no such download and no unpack; and a run that succeeds is
exactly those five calls.  `Run` of fedora never takes a manifest as hash
source and never calls `VerifyFile`.  `Run` of gentoo, over a scheme other
than https, calls `Unpack` only after a valid-signature result and fails on an
invalid signature. -/
theorem manifest_trust_order (sys : Sys σ) (s : common) (st : RunState σ)
    (hskip : s.definition.Source.SkipVerification = false)
    (hkeys : s.definition.Source.Keys ≠ []) :
    (∃ evs, (altLinux.Run sys s st).2.trace = st.trace ++ evs ∧
      precededBy (Event.fetched (altLinux.baseURL s ++ "SHA256SUMS" ++ ".gpg"))
        Event.usesManifest evs = true ∧
      precededBy (Event.fetched (altLinux.baseURL s ++ "SHA256SUMS")) Event.usesManifest evs =
        true ∧
      precededBy Event.isValidSignature Event.usesManifest evs = true ∧
      precededBy Event.isValidSignature Event.isUnpack evs = true ∧
      ((∃ e ∈ evs, e.isInvalidSignature = true) →
        (altLinux.Run sys s st).1 = .error (.errorf "Invalid signature for %q" ["SHA256SUMS"]) ∧
        evs.all (fun e => !e.usesManifest && !e.isUnpack) = true) ∧
      ((altLinux.Run sys s st).1 = .ok () → ∃ fpath p2 p3,
        evs = [.downloadHash (altLinux.baseURL s ++ "SHA256SUMS" ++ ".gpg") "" none (.ok fpath),
          .downloadHash (altLinux.baseURL s ++ "SHA256SUMS") "" none (.ok p2),
          .verifyFile (fpath.Join "SHA256SUMS") (some (fpath.Join "SHA256SUMS.gpg")) (.ok true),
          .downloadHash (altLinux.baseURL s ++ altLinux.fname sys s)
            (altLinux.baseURL s ++ "SHA256SUMS") (some .sha256) (.ok p3),
          .unpack (p3.Join (altLinux.fname sys s)) s.rootfsDir none])) ∧
    (∃ evs, (fedora.Run sys s st).2.trace = st.trace ++ evs ∧ ∀ e ∈ evs, e.unverified = true) ∧
    ((∀ rest scheme, sys.parseURL (s.definition.Source.URL ++ rest) = .ok scheme →
        scheme ≠ "https") →
      ∃ evs, (gentoo.Run sys s st).2.trace = st.trace ++ evs ∧
        precededBy Event.isValidSignature Event.isUnpack evs = true ∧
        (evs.any Event.isInvalidSignature = true →
          ∃ name, (gentoo.Run sys s st).1 = .error (.errorf "Failed to verify %q" [name]))) :=
  ⟨altLinux_Run_keys sys s st hskip hkeys, (fedora_Run_unverified sys s st).1,
    fun hscheme => gentoo_Run_verify sys s st hskip hscheme⟩

theorem manifest_trust_order_witness :
    (demoCommon "http://m" ["key"] false).definition.Source.Keys ≠ [] ∧
    ∃ evs, (fedora.Run (demoSys "20200101.0" true) (demoCommon "http://m" ["key"] false)
      ⟨(), []⟩).2.trace = [] ++ evs ∧ ∀ e ∈ evs, e.unverified = true :=
  ⟨by decide, (manifest_trust_order (demoSys "20200101.0" true)
    (demoCommon "http://m" ["key"] false) ⟨(), []⟩ rfl (by decide)).2.1⟩

/-- C2 fails as stated: with skip-verification false and a key, `Run` of
gentoo downloads the primary artifact with the `.DIGESTS` manifest as hash
source before any signature is verified, and has downloaded it when the
signature turns out invalid; `Run` of fedora succeeds without having verified
anything or used a manifest. -/
theorem manifest_trust_order_counterexample :
    (demoCommon "http://m" ["key"] false).definition.Source.SkipVerification = false ∧
    (demoCommon "http://m" ["key"] false).definition.Source.Keys ≠ [] ∧
    precededBy Event.isValidSignature Event.usesManifest
      (gentoo.Run (demoSys "<a href=\"stage3-amd64-20200101.tar.xz\">" true)
        (demoCommon "http://m" ["key"] false) ⟨(), []⟩).2.trace = false ∧
    (gentoo.Run (demoSys "<a href=\"stage3-amd64-20200101.tar.xz\">" false)
      (demoCommon "http://m" ["key"] false) ⟨(), []⟩).2.trace =
      [.httpGet "http://m/releases/amd64/autobuilds/current-stage3-amd64"
          (.ok (.ok "<a href=\"stage3-amd64-20200101.tar.xz\">")),
        .downloadHash
          "http://m/releases/amd64/autobuilds/current-stage3-amd64/stage3-amd64-20200101.tar.xz"
          "http://m/releases/amd64/autobuilds/current-stage3-amd64/stage3-amd64-20200101.tar.xz.DIGESTS"
          (some .sha512) (.ok ["cache"]),
        .downloadHash
          "http://m/releases/amd64/autobuilds/current-stage3-amd64/stage3-amd64-20200101.tar.xz.DIGESTS.asc"
          "" none (.ok ["cache"]),
        .verifyFile ["cache", "stage3-amd64-20200101.tar.xz.DIGESTS.asc"] none (.ok false)] ∧
    (fedora.Run (demoSys "20200101.0" true) (demoCommon "http://m" ["key"] false)
      ⟨(), []⟩).1 = .ok () ∧
    (fedora.Run (demoSys "20200101.0" true) (demoCommon "http://m" ["key"] false)
      ⟨(), []⟩).2.trace.any (fun e => e.isVerifyFile || e.usesManifest) = false := by
  decide

/-! ## Lemmas: the unpack loop on a file tree -/

section Tree
variable (decode : String → Except GoError (List (String × String)))
variable (unmarshal : String → Except GoError (List Manifest))

theorem unpackAll_cons (rootfsDir : Path) (layer : String) (rest : List String) (fs : FS) :
    unpackAll decode rootfsDir fs (layer :: rest) =
      match FS.archiveWrites decode fs (rootfsDir.Join layer) rootfsDir with
      | .error e => ⟨[], fs, some (layer, e)⟩
      | .ok ws =>
        ⟨layer :: (unpackAll decode rootfsDir (fs.writeAll ws) rest).unpacked,
          (unpackAll decode rootfsDir (fs.writeAll ws) rest).tree,
          (unpackAll decode rootfsDir (fs.writeAll ws) rest).failed⟩ := rfl

theorem unpackAll_append (rootfsDir : Path) :
    ∀ (l1 l2 : List String) (fs : FS),
      unpackAll decode rootfsDir fs (l1 ++ l2) =
        match (unpackAll decode rootfsDir fs l1).failed with
        | some f => ⟨(unpackAll decode rootfsDir fs l1).unpacked,
            (unpackAll decode rootfsDir fs l1).tree, some f⟩
        | none =>
          ⟨(unpackAll decode rootfsDir fs l1).unpacked ++
              (unpackAll decode rootfsDir (unpackAll decode rootfsDir fs l1).tree l2).unpacked,
            (unpackAll decode rootfsDir (unpackAll decode rootfsDir fs l1).tree l2).tree,
            (unpackAll decode rootfsDir (unpackAll decode rootfsDir fs l1).tree l2).failed⟩
  | [], l2, fs => by simp [unpackAll]
  | layer :: rest, l2, fs => by
    rw [List.cons_append, unpackAll_cons, unpackAll_cons]
    cases h : FS.archiveWrites decode fs (rootfsDir.Join layer) rootfsDir with
    | error e => rfl
    | ok ws =>
      simp only
      rw [unpackAll_append rootfsDir rest l2 (fs.writeAll ws)]
      cases (unpackAll decode rootfsDir (fs.writeAll ws) rest).failed <;> rfl

theorem fedora_unpackLayerList_fs (rootfsDir : Path) :
    ∀ (layers : List String) (acc : List Path) (fs : FS) (tr : List Event),
      fedora.unpackLayerList (fsSys decode unmarshal) rootfsDir layers acc ⟨fs, tr⟩ =
        (unpackResult rootfsDir (unpackAll decode rootfsDir fs layers)
            (acc ++ layers.map (fun l => rootfsDir.Join (filepathDir l))),
          ⟨(unpackAll decode rootfsDir fs layers).tree,
            tr ++ unpackEvents rootfsDir (unpackAll decode rootfsDir fs layers)⟩)
  | [], acc, fs, tr => by
    simp [fedora.unpackLayerList, unpackAll, unpackResult, unpackEvents, M.ret]
  | layer :: rest, acc, fs, tr => by
    rw [unpackAll_cons]
    unfold fedora.unpackLayerList
    simp only [M.bind_apply, M.onErr, Sys.Unpack, fsSys, FS.unpack]
    cases h : FS.archiveWrites decode fs (rootfsDir.Join layer) rootfsDir with
    | error e => simp [errToExcept, unpackResult, unpackEvents]
    | ok ws =>
      simp only [errToExcept]
      have ih := fedora_unpackLayerList_fs rootfsDir rest
        (acc ++ [rootfsDir.Join (filepathDir layer)]) (fs.writeAll ws)
        (tr ++ [Event.unpack (rootfsDir.Join layer) rootfsDir none])
      simp only [fsSys] at ih
      rw [ih]
      cases hf : (unpackAll decode rootfsDir (fs.writeAll ws) rest).failed <;>
        simp [unpackResult, unpackEvents, hf]

theorem fedora_unpackManifests_fs (rootfsDir : Path) :
    ∀ (manifests : List Manifest) (acc : List Path) (fs : FS) (tr : List Event),
      fedora.unpackManifests (fsSys decode unmarshal) rootfsDir manifests acc ⟨fs, tr⟩ =
        (unpackResult rootfsDir (unpackAll decode rootfsDir fs (layersOf manifests))
            (acc ++ cleanupOf rootfsDir manifests),
          ⟨(unpackAll decode rootfsDir fs (layersOf manifests)).tree,
            tr ++ unpackEvents rootfsDir (unpackAll decode rootfsDir fs (layersOf manifests))⟩)
  | [], acc, fs, tr => by
    simp [fedora.unpackManifests, layersOf, cleanupOf, unpackAll, unpackResult, unpackEvents,
      M.ret]
  | m :: rest, acc, fs, tr => by
    unfold fedora.unpackManifests
    simp only [M.bind_apply]
    rw [fedora_unpackLayerList_fs]
    have hl : layersOf (m :: rest) = m.Layers ++ layersOf rest := by simp [layersOf]
    have hc : cleanupOf rootfsDir (m :: rest) =
        m.Layers.map (fun l => rootfsDir.Join (filepathDir l)) ++ [rootfsDir.Join m.Config] ++
          cleanupOf rootfsDir rest := by simp [cleanupOf]
    rw [hl, hc, unpackAll_append]
    cases hf : (unpackAll decode rootfsDir fs m.Layers).failed with
    | some f =>
      obtain ⟨l, e⟩ := f
      simp [unpackResult, unpackEvents, hf]
    | none =>
      simp only [unpackResult, hf]
      rw [fedora_unpackManifests_fs rootfsDir rest]
      cases hf2 : (unpackAll decode rootfsDir (unpackAll decode rootfsDir fs m.Layers).tree
        (layersOf rest)).failed <;>
        simp [unpackResult, unpackEvents, hf, hf2]

theorem fedora_removePaths_fs :
    ∀ (paths : List Path) (fs : FS) (tr : List Event),
      fedora.removePaths (fsSys decode unmarshal) paths ⟨fs, tr⟩ =
        (.ok (), ⟨paths.foldl FS.removeAll fs,
          tr ++ paths.map (fun p => Event.removeAll p none)⟩)
  | [], fs, tr => by simp [fedora.removePaths, M.ret]
  | p :: rest, fs, tr => by
    unfold fedora.removePaths
    simp only [Sys.RemoveAll, fsSys]
    have ih := fedora_removePaths_fs rest (fs.removeAll p) (tr ++ [Event.removeAll p none])
    simp only [fsSys] at ih
    rw [ih]
    simp

/-- What `unpackLayers` does on a file tree whose manifest reads and parses. -/
theorem fedora_unpackLayers_fs (rootfsDir : Path) (fs : FS) (tr : List Event) (data : String)
    (manifests : List Manifest)
    (hread : fs.read (rootfsDir.Join "manifest.json") = some data)
    (hparse : unmarshal data = .ok manifests) :
    fedora.unpackLayers (fsSys decode unmarshal) rootfsDir ⟨fs, tr⟩ =
      match (unpackAll decode rootfsDir fs (layersOf manifests)).failed with
      | some (l, e) =>
        (.error (.wrapf "Failed to unpack %q: %w" [(rootfsDir.Join l).str] e),
          ⟨(unpackAll decode rootfsDir fs (layersOf manifests)).tree,
            tr ++ [Event.readFile (rootfsDir.Join "manifest.json") (.ok (.ok data))] ++
              unpackEvents rootfsDir (unpackAll decode rootfsDir fs (layersOf manifests))⟩)
      | none =>
        (.ok (),
          ⟨(removalList rootfsDir manifests
              (unpackAll decode rootfsDir fs (layersOf manifests)).tree).foldl FS.removeAll
              (unpackAll decode rootfsDir fs (layersOf manifests)).tree,
            tr ++ [Event.readFile (rootfsDir.Join "manifest.json") (.ok (.ok data))] ++
              unpackEvents rootfsDir (unpackAll decode rootfsDir fs (layersOf manifests)) ++
              [Event.glob (rootfsDir.Join "tmp") (.ok
                  ((unpackAll decode rootfsDir fs (layersOf manifests)).tree.entries
                    (rootfsDir.Join "tmp"))),
                Event.glob (rootfsDir.Join "root") (.ok
                  ((unpackAll decode rootfsDir fs (layersOf manifests)).tree.entries
                    (rootfsDir.Join "root")))] ++
              (removalList rootfsDir manifests
                (unpackAll decode rootfsDir fs (layersOf manifests)).tree).map
                (fun p => Event.removeAll p none)⟩) := by
  unfold fedora.unpackLayers
  simp only [M.bind_apply, M.onErr, Sys.Open, fsSys, hread, hparse]
  have h := fedora_unpackManifests_fs decode unmarshal rootfsDir manifests
    [rootfsDir.Join "manifest.json", rootfsDir.Join "repositories"] fs
    (tr ++ [Event.readFile (rootfsDir.Join "manifest.json") (.ok (.ok data))])
  simp only [fsSys] at h
  rw [h]
  cases hf : (unpackAll decode rootfsDir fs (layersOf manifests)).failed with
  | some f =>
    obtain ⟨l, e⟩ := f
    simp [unpackResult, hf]
  | none =>
    simp only [unpackResult, hf, Sys.Glob]
    have h2 := fedora_removePaths_fs decode unmarshal
    simp only [fsSys] at h2
    rw [h2]
    simp [removalList]

/-- What `unpackLayers` does on a file tree without a readable, well-formed
manifest: an error, one read and nothing else. -/
theorem fedora_unpackLayers_fs_no_manifest (rootfsDir : Path) (fs : FS) (tr : List Event) :
    (fs.read (rootfsDir.Join "manifest.json") = none →
      fedora.unpackLayers (fsSys decode unmarshal) rootfsDir ⟨fs, tr⟩ =
        (.error (.wrapf "Failed to open %q: %w" [(rootfsDir.Join "manifest.json").str]
            (.new ("open " ++ (rootfsDir.Join "manifest.json").str ++
              ": no such file or directory"))),
          ⟨fs, tr ++ [Event.readFile (rootfsDir.Join "manifest.json")
            (.error (.new ("open " ++ (rootfsDir.Join "manifest.json").str ++
              ": no such file or directory")))]⟩)) ∧
    (∀ data err, fs.read (rootfsDir.Join "manifest.json") = some data →
      unmarshal data = .error err →
      fedora.unpackLayers (fsSys decode unmarshal) rootfsDir ⟨fs, tr⟩ =
        (.error (.wrapf "Failed to unmarshal JSON data: %w" [] err),
          ⟨fs, tr ++ [Event.readFile (rootfsDir.Join "manifest.json") (.ok (.ok data))]⟩)) := by
  constructor
  · intro h
    unfold fedora.unpackLayers
    simp [M.bind_apply, M.onErr, Sys.Open, fsSys, h]
  · intro data err h hp
    unfold fedora.unpackLayers
    simp [M.bind_apply, M.onErr, Sys.Open, fsSys, h, hp, M.fail]

end Tree

/-! ## Lemmas: file trees -/

theorem FS.read_write_same (fs : FS) (p : Path) (c : String) : (fs.write p c).read p = some c := by
  simp [FS.write, FS.read]

theorem FS.read_write_other (fs : FS) (p q : Path) (c : String) (h : q ≠ p) :
    (fs.write p c).read q = fs.read q := by
  have hpq : ¬ p = q := fun e => h e.symm
  simp only [FS.write, FS.read, List.find?_cons, hpq, decide_False, List.find?_filter]
  congr 2
  funext a
  by_cases ha : a.1 = q
  · simp [ha, h]
  · simp [ha]

theorem lastWrite_append (a b : List (Path × String)) (p : Path) :
    lastWrite (a ++ b) p = (lastWrite b p).or (lastWrite a p) := by
  simp only [lastWrite, List.reverse_append, List.find?_append]
  cases List.find? (fun w => decide (w.1 = p)) b.reverse <;> simp

theorem lastWrite_cons (w : Path × String) (ws : List (Path × String)) (p : Path) :
    lastWrite (w :: ws) p = (lastWrite ws p).or (if w.1 = p then some w.2 else none) := by
  have := lastWrite_append [w] ws p
  simp only [List.singleton_append] at this
  rw [this]
  congr 1
  by_cases h : w.1 = p <;> simp [lastWrite, h]

/-- Last writer wins: after a list of writes a path holds what the last write
to it gave it, and what it held before when no write went to it. -/
theorem FS.read_writeAll (ws : List (Path × String)) :
    ∀ (fs : FS) (p : Path), (fs.writeAll ws).read p = (lastWrite ws p).or (fs.read p) := by
  induction ws with
  | nil => intro fs p; simp [FS.writeAll, lastWrite]
  | cons w ws ih =>
    intro fs p
    have e : fs.writeAll (w :: ws) = (fs.write w.1 w.2).writeAll ws := rfl
    rw [e, ih, lastWrite_cons]
    cases lastWrite ws p with
    | some c => rfl
    | none =>
      by_cases h : w.1 = p
      · subst h; simp [FS.read_write_same]
      · simp [h, FS.read_write_other _ _ _ _ (fun e => h e.symm)]

theorem FS.writeAll_append (fs : FS) (a b : List (Path × String)) :
    fs.writeAll (a ++ b) = (fs.writeAll a).writeAll b := by
  simp [FS.writeAll, List.foldl_append]

theorem lastWrite_flatten_split (pre : List (List (Path × String))) (L : List (Path × String))
    (post : List (List (Path × String))) (p : Path) (c : String)
    (hL : lastWrite L p = some c) (hpost : ∀ L2 ∈ post, lastWrite L2 p = none) :
    lastWrite (pre ++ L :: post).flatten p = some c := by
  have hp : lastWrite post.flatten p = none := by
    induction post with
    | nil => rfl
    | cons x xs ih =>
      rw [List.flatten_cons, lastWrite_append, ih (fun y hy => hpost y (List.mem_cons_of_mem _ hy)),
        hpost x (List.mem_cons_self _ _)]
      rfl
  rw [List.flatten_append, List.flatten_cons, lastWrite_append, lastWrite_append, hp, hL]
  rfl

theorem lastWrite_flatten_none (log : List (List (Path × String))) (p : Path)
    (h : ∀ L ∈ log, lastWrite L p = none) : lastWrite log.flatten p = none := by
  induction log with
  | nil => rfl
  | cons x xs ih =>
    rw [List.flatten_cons, lastWrite_append, ih (fun y hy => h y (List.mem_cons_of_mem _ hy)),
      h x (List.mem_cons_self _ _)]
    rfl

section Tree
variable (decode : String → Except GoError (List (String × String)))

/-- When no unpack fails, the loop unpacks every layer, and the tree it leaves
is the tree it started from with the writes of the log laid over it. -/
theorem unpackAll_ok (rootfsDir : Path) :
    ∀ (layers : List String) (fs : FS), (unpackAll decode rootfsDir fs layers).failed = none →
      (unpackAll decode rootfsDir fs layers).unpacked = layers ∧
      (writeLog decode rootfsDir fs layers).length = layers.length ∧
      (unpackAll decode rootfsDir fs layers).tree =
        fs.writeAll (writeLog decode rootfsDir fs layers).flatten
  | [], fs, _ => by simp [unpackAll, writeLog, FS.writeAll]
  | layer :: rest, fs, h => by
    rw [unpackAll_cons] at h ⊢
    unfold writeLog
    cases hw : FS.archiveWrites decode fs (rootfsDir.Join layer) rootfsDir with
    | error e => rw [hw] at h; simp at h
    | ok ws =>
      rw [hw] at h
      simp only at h ⊢
      obtain ⟨h1, h2, h3⟩ := unpackAll_ok rootfsDir rest (fs.writeAll ws) h
      refine ⟨by rw [h1], by simp [h2], ?_⟩
      rw [h3, List.flatten_cons, FS.writeAll_append]

end Tree

theorem FS.foldl_removeAll (paths : List Path) :
    ∀ fs : FS, paths.foldl FS.removeAll fs =
      fs.filter (fun e => paths.all (fun q => !q.isPrefixOf e.1)) := by
  induction paths with
  | nil => intro fs; simp
  | cons q rest ih =>
    intro fs
    rw [List.foldl_cons, ih, FS.removeAll, List.filter_filter]
    congr 1
    funext e
    simp [Bool.and_comm]

theorem FS.pathExists_foldl_removeAll (paths : List Path) (fs : FS) (p : Path) (hp : p ∈ paths) :
    (paths.foldl FS.removeAll fs).pathExists p = false := by
  rw [FS.foldl_removeAll, FS.pathExists, List.any_eq_false]
  intro e he hpe
  have := (List.mem_filter.mp he).2
  rw [List.all_eq_true] at this
  have h2 := this p hp
  simp [hpe] at h2

theorem FS.read_foldl_removeAll (paths : List Path) (fs : FS) (k : Path)
    (hk : ∀ p ∈ paths, ¬ p <+: k) : (paths.foldl FS.removeAll fs).read k = fs.read k := by
  rw [FS.foldl_removeAll]
  simp only [FS.read, List.find?_filter]
  congr 2
  funext a
  by_cases ha : a.1 = k
  · subst ha
    have : paths.all (fun q => !q.isPrefixOf a.1) = true := by
      rw [List.all_eq_true]
      intro q hq
      have := hk q hq
      rw [← List.isPrefixOf_iff_prefix] at this
      simp only [Bool.not_eq_true] at this
      simp [this]
    simp [this]
  · simp [ha]

theorem FS.mem_entries (fs : FS) (dir e : Path) :
    e ∈ fs.entries dir ↔ ∃ x ∈ fs, ∃ n t, x.1 = dir ++ n :: t ∧ e = dir ++ [n] := by
  unfold FS.entries
  rw [List.mem_dedup, List.mem_filterMap]
  constructor
  · rintro ⟨x, hx, h⟩
    split_ifs at h with hp
    · obtain ⟨t, ht⟩ := List.isPrefixOf_iff_prefix.mp hp
      rw [← ht] at h
      simp only [List.drop_left, Option.map_eq_some'] at h
      obtain ⟨n, hn, rfl⟩ := h
      cases t with
      | nil => simp at hn
      | cons a t =>
        simp only [List.head?_cons, Option.some.injEq] at hn
        subst hn
        exact ⟨x, hx, a, t, ht.symm, rfl⟩
  · rintro ⟨x, hx, n, t, h1, rfl⟩
    refine ⟨x, hx, ?_⟩
    have hp : dir.isPrefixOf x.1 = true := by
      rw [List.isPrefixOf_iff_prefix, h1]; exact List.prefix_append _ _
    rw [if_pos hp, h1]
    simp

/-- After removing a list of paths that holds every entry of `dir`, nothing is
left directly inside `dir`. -/
theorem FS.entries_foldl_removeAll (paths : List Path) (fs : FS) (dir : Path)
    (h : ∀ e ∈ fs.entries dir, e ∈ paths) : (paths.foldl FS.removeAll fs).entries dir = [] := by
  rw [List.eq_nil_iff_forall_not_mem]
  intro e he
  obtain ⟨x, hx, n, t, h1, rfl⟩ := (FS.mem_entries _ _ _).mp he
  rw [FS.foldl_removeAll] at hx
  obtain ⟨hx1, hx2⟩ := List.mem_filter.mp hx
  have hin : dir ++ [n] ∈ paths := h _ ((FS.mem_entries _ _ _).mpr ⟨x, hx1, n, t, h1, rfl⟩)
  rw [List.all_eq_true] at hx2
  have := hx2 _ hin
  have hpre : (dir ++ [n]).isPrefixOf x.1 = true := by
    rw [List.isPrefixOf_iff_prefix, h1]
    exact ⟨t, by simp⟩
  simp [hpre] at this

theorem FS.pathExists_of_read (fs : FS) (p : Path) (c : String) (h : fs.read p = some c) :
    fs.pathExists p = true := by
  simp only [FS.read, Option.map_eq_some'] at h
  obtain ⟨e, he, _⟩ := h
  have hm := List.mem_of_find?_eq_some he
  have hp := List.find?_some he
  simp only [decide_eq_true_eq] at hp
  rw [FS.pathExists, List.any_eq_true]
  exact ⟨e, hm, by rw [hp, List.isPrefixOf_iff_prefix]⟩

theorem FS.pathExists_write (fs : FS) (q p : Path) (c : String) (h : fs.pathExists p = true) :
    (fs.write q c).pathExists p = true := by
  rw [FS.pathExists, List.any_eq_true] at h ⊢
  obtain ⟨e, he, hpe⟩ := h
  by_cases heq : e.1 = q
  · exact ⟨(q, c), by simp [FS.write], by rw [← heq]; exact hpe⟩
  · exact ⟨e, by simp [FS.write, he, heq], hpe⟩

theorem FS.pathExists_writeAll (ws : List (Path × String)) :
    ∀ (fs : FS) (p : Path), fs.pathExists p = true → (fs.writeAll ws).pathExists p = true := by
  induction ws with
  | nil => intro fs p h; exact h
  | cons w ws ih =>
    intro fs p h
    exact ih (fs.write w.1 w.2) p (FS.pathExists_write fs w.1 p w.2 h)

section Tree
variable (decode : String → Except GoError (List (String × String)))

/-- The unpack loop removes nothing: what exists before exists after. -/
theorem unpackAll_tree_mono (rootfsDir : Path) :
    ∀ (layers : List String) (fs : FS) (p : Path), fs.pathExists p = true →
      (unpackAll decode rootfsDir fs layers).tree.pathExists p = true
  | [], fs, p, h => h
  | layer :: rest, fs, p, h => by
    rw [unpackAll_cons]
    cases hw : FS.archiveWrites decode fs (rootfsDir.Join layer) rootfsDir with
    | error e => exact h
    | ok ws => exact unpackAll_tree_mono rootfsDir rest _ p (FS.pathExists_writeAll ws fs p h)

/-- The archive of every layer unpacked is still in the tree after the loop. -/
theorem unpackAll_archives (rootfsDir : Path) :
    ∀ (layers : List String) (fs : FS), ∀ l ∈ (unpackAll decode rootfsDir fs layers).unpacked,
      (unpackAll decode rootfsDir fs layers).tree.pathExists (rootfsDir.Join l) = true
  | [], fs, l, h => by simp [unpackAll] at h
  | layer :: rest, fs, l, h => by
    rw [unpackAll_cons] at h ⊢
    cases hw : FS.archiveWrites decode fs (rootfsDir.Join layer) rootfsDir with
    | error e => rw [hw] at h; simp at h
    | ok ws =>
      rw [hw] at h
      simp only [List.mem_cons] at h ⊢
      rcases h with rfl | h
      · apply unpackAll_tree_mono
        apply FS.pathExists_writeAll
        unfold FS.archiveWrites at hw
        cases hr : fs.read (rootfsDir.Join l) with
        | none => rw [hr] at hw; simp at hw
        | some bytes => exact FS.pathExists_of_read fs _ bytes hr
      · exact unpackAll_archives rootfsDir rest _ l h

end Tree

section Tree
variable (decode : String → Except GoError (List (String × String)))
variable (unmarshal : String → Except GoError (List Manifest))

theorem unpackResult_ok (rootfsDir : Path) (o : UnpackOutcome) (paths paths2 : List Path)
    (h : unpackResult rootfsDir o paths = .ok paths2) : o.failed = none := by
  unfold unpackResult at h
  cases hf : o.failed with
  | none => rfl
  | some f => rw [hf] at h; simp at h

theorem unpackEvents_ok (rootfsDir : Path) (o : UnpackOutcome) (h : o.failed = none) :
    unpackEvents rootfsDir o =
      o.unpacked.map (fun l => Event.unpack (rootfsDir.Join l) rootfsDir none) := by
  simp [unpackEvents, h]

theorem filter_isUnpack_map_unpack (rootfsDir : Path) (layers : List String) :
    (layers.map (fun l => Event.unpack (rootfsDir.Join l) rootfsDir none)).filter
      (fun e => e.isUnpack) =
      layers.map (fun l => Event.unpack (rootfsDir.Join l) rootfsDir none) := by
  induction layers with
  | nil => rfl
  | cons l ls ih => simp [Event.isUnpack, ih]

theorem filter_isUnpack_map_removeAll (paths : List Path) :
    (paths.map (fun p => Event.removeAll p none)).filter (fun e => e.isUnpack) = [] := by
  induction paths with
  | nil => rfl
  | cons l ls ih => simp [Event.isUnpack, ih]

theorem filter_isUnpack_readFile (a : Path) (b : Except GoError (Except GoError String)) :
    [Event.readFile a b].filter (fun e => e.isUnpack) = [] := rfl

theorem filter_isUnpack_globs (a b : Path) (x y : Except GoError (List Path)) :
    [Event.glob a x, Event.glob b y].filter (fun e => e.isUnpack) = [] := rfl

/-- C6. When every unpack succeeds, `unpackLayers` calls `Unpack` once for
each layer, with the rootfs as target, in the order of the manifest (elements
in manifest order, layers in list order); and after the unpack loop a path
written by several layers holds what the last of them wrote, a path written
by none holds what it held before. -/
theorem unpack_order_last_writer_wins (rootfsDir : Path) (fs : FS) (tr : List Event)
    (data : String) (manifests : List Manifest) (paths : List Path)
    (hread : fs.read (rootfsDir.Join "manifest.json") = some data)
    (hparse : unmarshal data = .ok manifests)
    (hok : (fedora.unpackManifests (fsSys decode unmarshal) rootfsDir manifests
      [rootfsDir.Join "manifest.json", rootfsDir.Join "repositories"]
      ⟨fs, tr ++ [Event.readFile (rootfsDir.Join "manifest.json") (.ok (.ok data))]⟩).1 =
        .ok paths) :
    (fedora.unpackLayers (fsSys decode unmarshal) rootfsDir ⟨fs, tr⟩).2.trace.filter
        (fun e => e.isUnpack) =
      tr.filter (fun e => e.isUnpack) ++
        (layersOf manifests).map (fun l => Event.unpack (rootfsDir.Join l) rootfsDir none) ∧
    (fedora.unpackManifests (fsSys decode unmarshal) rootfsDir manifests
      [rootfsDir.Join "manifest.json", rootfsDir.Join "repositories"]
      ⟨fs, tr ++ [Event.readFile (rootfsDir.Join "manifest.json") (.ok (.ok data))]⟩).2.trace =
      tr ++ [Event.readFile (rootfsDir.Join "manifest.json") (.ok (.ok data))] ++
        (layersOf manifests).map (fun l => Event.unpack (rootfsDir.Join l) rootfsDir none) ∧
    (writeLog decode rootfsDir fs (layersOf manifests)).length = (layersOf manifests).length ∧
    (∀ pre L post p c, writeLog decode rootfsDir fs (layersOf manifests) = pre ++ L :: post →
      lastWrite L p = some c → (∀ L2 ∈ post, lastWrite L2 p = none) →
      (fedora.unpackManifests (fsSys decode unmarshal) rootfsDir manifests
        [rootfsDir.Join "manifest.json", rootfsDir.Join "repositories"]
        ⟨fs, tr ++ [Event.readFile (rootfsDir.Join "manifest.json") (.ok (.ok data))]⟩).2.world.read
        p = some c) ∧
    (∀ p, (∀ L ∈ writeLog decode rootfsDir fs (layersOf manifests), lastWrite L p = none) →
      (fedora.unpackManifests (fsSys decode unmarshal) rootfsDir manifests
        [rootfsDir.Join "manifest.json", rootfsDir.Join "repositories"]
        ⟨fs, tr ++ [Event.readFile (rootfsDir.Join "manifest.json") (.ok (.ok data))]⟩).2.world.read
        p = fs.read p) := by
  rw [fedora_unpackManifests_fs] at hok ⊢
  have hnone := unpackResult_ok _ _ _ _ hok
  obtain ⟨hall, hlen, htree⟩ := unpackAll_ok decode rootfsDir _ fs hnone
  rw [fedora_unpackLayers_fs decode unmarshal rootfsDir fs tr data manifests hread hparse, hnone]
  refine ⟨?_, ?_, hlen, ?_, ?_⟩
  · simp only [unpackEvents_ok _ _ hnone, hall, List.filter_append, filter_isUnpack_map_unpack,
      filter_isUnpack_map_removeAll, filter_isUnpack_readFile, filter_isUnpack_globs,
      List.append_nil]
  · simp only [unpackEvents_ok _ _ hnone, hall]
  · intro pre L post p c hlog hL hpost
    show (unpackAll decode rootfsDir fs (layersOf manifests)).tree.read p = some c
    rw [htree, FS.read_writeAll, hlog, lastWrite_flatten_split pre L post p c hL hpost]
    rfl
  · intro p hp
    show (unpackAll decode rootfsDir fs (layersOf manifests)).tree.read p = fs.read p
    rw [htree, FS.read_writeAll, lastWrite_flatten_none _ p hp]
    rfl

/-- C7. When the manifest reads and parses and every unpack succeeds,
`unpackLayers` returns no error; the paths it removes are, in this order,
`manifest.json`, `repositories`, for each manifest element the directory of
each layer and then the `Config` path, the entries of `tmp` and the entries
of `root`; none of them exists afterwards and nothing is left directly inside
`tmp` and `root`; and a file of the tree left by the layers that lies at or
below none of the removed paths is still there with the content it had, which
for a path written by a layer is what the last layer writing it wrote. -/
theorem cleanup_after_assembly (rootfsDir : Path) (fs : FS) (tr : List Event)
    (data : String) (manifests : List Manifest) (paths : List Path)
    (hread : fs.read (rootfsDir.Join "manifest.json") = some data)
    (hparse : unmarshal data = .ok manifests)
    (hok : (fedora.unpackManifests (fsSys decode unmarshal) rootfsDir manifests
      [rootfsDir.Join "manifest.json", rootfsDir.Join "repositories"]
      ⟨fs, tr ++ [Event.readFile (rootfsDir.Join "manifest.json") (.ok (.ok data))]⟩).1 =
        .ok paths) :
    (fedora.unpackLayers (fsSys decode unmarshal) rootfsDir ⟨fs, tr⟩).1 = .ok () ∧
    (fedora.unpackLayers (fsSys decode unmarshal) rootfsDir ⟨fs, tr⟩).2.trace =
      tr ++ [Event.readFile (rootfsDir.Join "manifest.json") (.ok (.ok data))] ++
        (layersOf manifests).map (fun l => Event.unpack (rootfsDir.Join l) rootfsDir none) ++
        [Event.glob (rootfsDir.Join "tmp") (.ok
            ((unpackAll decode rootfsDir fs (layersOf manifests)).tree.entries
              (rootfsDir.Join "tmp"))),
          Event.glob (rootfsDir.Join "root") (.ok
            ((unpackAll decode rootfsDir fs (layersOf manifests)).tree.entries
              (rootfsDir.Join "root")))] ++
        ([rootfsDir.Join "manifest.json", rootfsDir.Join "repositories"] ++
          manifests.flatMap (fun m =>
            m.Layers.map (fun layer => rootfsDir.Join (filepathDir layer)) ++
              [rootfsDir.Join m.Config]) ++
          (unpackAll decode rootfsDir fs (layersOf manifests)).tree.entries (rootfsDir.Join "tmp") ++
          (unpackAll decode rootfsDir fs (layersOf manifests)).tree.entries
            (rootfsDir.Join "root")).map (fun p => Event.removeAll p none) ∧
    (∀ p ∈ removalList rootfsDir manifests (unpackAll decode rootfsDir fs (layersOf manifests)).tree,
      (fedora.unpackLayers (fsSys decode unmarshal) rootfsDir ⟨fs, tr⟩).2.world.pathExists p =
        false) ∧
    (fedora.unpackLayers (fsSys decode unmarshal) rootfsDir ⟨fs, tr⟩).2.world.entries
      (rootfsDir.Join "tmp") = [] ∧
    (fedora.unpackLayers (fsSys decode unmarshal) rootfsDir ⟨fs, tr⟩).2.world.entries
      (rootfsDir.Join "root") = [] ∧
    (∀ k c, (unpackAll decode rootfsDir fs (layersOf manifests)).tree.read k = some c →
      (∀ p ∈ removalList rootfsDir manifests
        (unpackAll decode rootfsDir fs (layersOf manifests)).tree, ¬ p <+: k) →
      (fedora.unpackLayers (fsSys decode unmarshal) rootfsDir ⟨fs, tr⟩).2.world.read k = some c) ∧
    (∀ pre L post k c, writeLog decode rootfsDir fs (layersOf manifests) = pre ++ L :: post →
      lastWrite L k = some c → (∀ L2 ∈ post, lastWrite L2 k = none) →
      (∀ p ∈ removalList rootfsDir manifests
        (unpackAll decode rootfsDir fs (layersOf manifests)).tree, ¬ p <+: k) →
      (fedora.unpackLayers (fsSys decode unmarshal) rootfsDir ⟨fs, tr⟩).2.world.read k =
        some c) := by
  rw [fedora_unpackManifests_fs] at hok
  have hnone := unpackResult_ok _ _ _ _ hok
  obtain ⟨hall, _, htree⟩ := unpackAll_ok decode rootfsDir _ fs hnone
  rw [fedora_unpackLayers_fs decode unmarshal rootfsDir fs tr data manifests hread hparse, hnone]
  refine ⟨rfl, ?_, ?_, ?_, ?_, ?_, ?_⟩
  · simp only [unpackEvents_ok _ _ hnone, hall]
    rfl
  · intro p hp
    exact FS.pathExists_foldl_removeAll _ _ p hp
  · exact FS.entries_foldl_removeAll _ _ _ fun e he => by simp [removalList, he]
  · exact FS.entries_foldl_removeAll _ _ _ fun e he => by simp [removalList, he]
  · intro k c hk hrem
    show (List.foldl FS.removeAll _ _).read k = some c
    rw [FS.read_foldl_removeAll _ _ k hrem, hk]
  · intro pre L post k c hlog hL hpost hrem
    show (List.foldl FS.removeAll _ _).read k = some c
    rw [FS.read_foldl_removeAll _ _ k hrem, htree, FS.read_writeAll, hlog,
      lastWrite_flatten_split pre L post k c hL hpost]
    rfl

end Tree

section Tree
variable (decode : String → Except GoError (List (String × String)))
variable (unmarshal : String → Except GoError (List Manifest))

theorem unpackAll_fail_at (rootfsDir : Path) (fs : FS) (pre post : List String) (l : String)
    (e : GoError) (hpre : (unpackAll decode rootfsDir fs pre).failed = none)
    (hfail : FS.archiveWrites decode (unpackAll decode rootfsDir fs pre).tree (rootfsDir.Join l)
      rootfsDir = .error e) :
    unpackAll decode rootfsDir fs (pre ++ l :: post) =
      ⟨pre, (unpackAll decode rootfsDir fs pre).tree, some (l, e)⟩ := by
  rw [unpackAll_append, hpre]
  simp only
  rw [unpackAll_cons, hfail, (unpackAll_ok decode rootfsDir pre fs hpre).1]
  simp

/-- C8. When the unpack of a layer fails after the layers before it were
unpacked, `unpackLayers` returns the error that names the path of that layer
(the rootfs joined with the layer path); it has called `Unpack` for the layers
before it and for this one, for no later layer, and `RemoveAll` for no path;
the tree is the one the layers before it left, in which everything that
existed at the start still exists, `manifest.json` and the archives of the
layers unpacked included.  And a `manifest.json` that is missing or does not
parse gives an error after the one read, with no unpack and no removal. -/
theorem unpack_failure_aborts (rootfsDir : Path) (fs : FS) (tr : List Event) (data : String)
    (manifests : List Manifest) (pre post : List String) (l : String) (paths0 : List Path)
    (fsk fsk2 : FS) (tr0 : List Event) (e : GoError)
    (hread : fs.read (rootfsDir.Join "manifest.json") = some data)
    (hparse : unmarshal data = .ok manifests)
    (hsplit : layersOf manifests = pre ++ l :: post)
    (hpre : fedora.unpackLayerList (fsSys decode unmarshal) rootfsDir pre [] ⟨fs, []⟩ =
      (.ok paths0, ⟨fsk, tr0⟩))
    (hfail : (fsSys decode unmarshal).unpack fsk (rootfsDir.Join l) rootfsDir = (some e, fsk2)) :
    ((fedora.unpackLayers (fsSys decode unmarshal) rootfsDir ⟨fs, tr⟩).1 =
        .error (.wrapf "Failed to unpack %q: %w" [(rootfsDir.Join l).str] e) ∧
      (fedora.unpackLayers (fsSys decode unmarshal) rootfsDir ⟨fs, tr⟩).2.trace =
        tr ++ [Event.readFile (rootfsDir.Join "manifest.json") (.ok (.ok data))] ++
          pre.map (fun l2 => Event.unpack (rootfsDir.Join l2) rootfsDir none) ++
          [Event.unpack (rootfsDir.Join l) rootfsDir (some e)] ∧
      (fedora.unpackLayers (fsSys decode unmarshal) rootfsDir ⟨fs, tr⟩).2.world = fsk ∧
      (∀ p, fs.pathExists p = true →
        (fedora.unpackLayers (fsSys decode unmarshal) rootfsDir ⟨fs, tr⟩).2.world.pathExists p =
          true) ∧
      (fedora.unpackLayers (fsSys decode unmarshal) rootfsDir ⟨fs, tr⟩).2.world.pathExists
        (rootfsDir.Join "manifest.json") = true ∧
      (∀ l2 ∈ pre,
        (fedora.unpackLayers (fsSys decode unmarshal) rootfsDir ⟨fs, tr⟩).2.world.pathExists
          (rootfsDir.Join l2) = true)) ∧
    (∀ (fs2 : FS) (tr2 : List Event), fs2.read (rootfsDir.Join "manifest.json") = none →
      fedora.unpackLayers (fsSys decode unmarshal) rootfsDir ⟨fs2, tr2⟩ =
        (.error (.wrapf "Failed to open %q: %w" [(rootfsDir.Join "manifest.json").str]
            (.new ("open " ++ (rootfsDir.Join "manifest.json").str ++
              ": no such file or directory"))),
          ⟨fs2, tr2 ++ [Event.readFile (rootfsDir.Join "manifest.json")
            (.error (.new ("open " ++ (rootfsDir.Join "manifest.json").str ++
              ": no such file or directory")))]⟩)) ∧
    (∀ (fs2 : FS) (tr2 : List Event) (data2 : String) (err : GoError),
      fs2.read (rootfsDir.Join "manifest.json") = some data2 → unmarshal data2 = .error err →
      fedora.unpackLayers (fsSys decode unmarshal) rootfsDir ⟨fs2, tr2⟩ =
        (.error (.wrapf "Failed to unmarshal JSON data: %w" [] err),
          ⟨fs2, tr2 ++ [Event.readFile (rootfsDir.Join "manifest.json") (.ok (.ok data2))]⟩)) := by
  refine ⟨?_, fun fs2 tr2 => (fedora_unpackLayers_fs_no_manifest decode unmarshal rootfsDir fs2 tr2).1,
    fun fs2 tr2 => (fedora_unpackLayers_fs_no_manifest decode unmarshal rootfsDir fs2 tr2).2⟩
  rw [fedora_unpackLayerList_fs] at hpre
  simp only [Prod.mk.injEq, RunState.mk.injEq] at hpre
  obtain ⟨hres, htree, _⟩ := hpre
  have hnone := unpackResult_ok _ _ _ _ hres
  have hw : FS.archiveWrites decode (unpackAll decode rootfsDir fs pre).tree (rootfsDir.Join l)
      rootfsDir = .error e := by
    rw [htree]
    simp only [fsSys, FS.unpack] at hfail
    cases hc : FS.archiveWrites decode fsk (rootfsDir.Join l) rootfsDir with
    | error e2 => rw [hc] at hfail; simp only [Prod.mk.injEq, Option.some.injEq] at hfail; rw [hfail.1]
    | ok ws => rw [hc] at hfail; simp at hfail
  have hall := unpackAll_fail_at decode rootfsDir fs pre post l e hnone hw
  rw [← hsplit] at hall
  rw [fedora_unpackLayers_fs decode unmarshal rootfsDir fs tr data manifests hread hparse, hall]
  have hmono : ∀ p, fs.pathExists p = true → fsk.pathExists p = true := by
    intro p hp
    rw [← htree]
    exact unpackAll_tree_mono decode rootfsDir pre fs p hp
  refine ⟨rfl, by simp [unpackEvents], htree, fun p hp => by simpa [htree] using hmono p hp,
    by simpa [htree] using hmono _ (FS.pathExists_of_read fs _ data hread), ?_⟩
  intro l2 hl2
  simp only [htree]
  have := unpackAll_archives decode rootfsDir pre fs l2
    (by rw [(unpackAll_ok decode rootfsDir pre fs hnone).1]; exact hl2)
  rw [htree] at this
  exact this

end Tree

theorem unpack_order_last_writer_wins_witness :
    (fedora.unpackManifests (fsSys demoDecode demoUnmarshal) ["rootfs"]
      [⟨["a/layer.tar"], "a/json"⟩, ⟨["b/layer.tar"], "b/json"⟩]
      [Path.Join ["rootfs"] "manifest.json", Path.Join ["rootfs"] "repositories"]
      ⟨demoTreeAB, [] ++ [Event.readFile (Path.Join ["rootfs"] "manifest.json")
        (.ok (.ok demoDataAB))]⟩).2.world.read ["rootfs", "etc", "os-release"] = some "B" :=
  (unpack_order_last_writer_wins demoDecode demoUnmarshal ["rootfs"] demoTreeAB [] demoDataAB
    [⟨["a/layer.tar"], "a/json"⟩, ⟨["b/layer.tar"], "b/json"⟩]
    [["rootfs", "manifest.json"], ["rootfs", "repositories"], ["rootfs", "a"],
      ["rootfs", "a", "json"], ["rootfs", "b"], ["rootfs", "b", "json"]]
    (by decide) (by decide) (by decide)).2.2.2.1
    [[(["rootfs", "etc", "os-release"], "A"), (["rootfs", "bin", "sh"], "a")]]
    [(["rootfs", "etc", "os-release"], "B")] [] ["rootfs", "etc", "os-release"] "B"
    (by decide) (by decide) (by simp)

theorem cleanup_after_assembly_witness :
    (fedora.unpackLayers (fsSys demoDecode demoUnmarshal) ["rootfs"] ⟨demoTreeL1, []⟩).1 =
      .ok () ∧
    (fedora.unpackLayers (fsSys demoDecode demoUnmarshal) ["rootfs"] ⟨demoTreeL1, []⟩).2.world =
      [(["rootfs", "usr", "bin", "env"], "E")] :=
  ⟨(cleanup_after_assembly demoDecode demoUnmarshal ["rootfs"] demoTreeL1 [] demoDataL1
    [⟨["l1/layer.tar"], "l1/json"⟩]
    [["rootfs", "manifest.json"], ["rootfs", "repositories"], ["rootfs", "l1"],
      ["rootfs", "l1", "json"]]
    (by decide) (by decide) (by decide)).1, by decide⟩

theorem unpack_failure_aborts_witness :
    (fedora.unpackLayers (fsSys demoDecode demoUnmarshal) ["rootfs"] ⟨demoTreeBroken, []⟩).1 =
      .error (.wrapf "Failed to unpack %q: %w" [Path.str (Path.Join ["rootfs"] "b/layer.tar")]
        (.new "unexpected EOF")) ∧
    (fedora.unpackLayers (fsSys demoDecode demoUnmarshal) ["rootfs"]
        ⟨demoTreeBroken, []⟩).2.world.read ["rootfs", "manifest.json"] = some demoDataAB :=
  ⟨(unpack_failure_aborts demoDecode demoUnmarshal ["rootfs"] demoTreeBroken [] demoDataAB
    [⟨["a/layer.tar"], "a/json"⟩, ⟨["b/layer.tar"], "b/json"⟩] ["a/layer.tar"] [] "b/layer.tar"
    [["rootfs", "a"]]
    [(["rootfs", "bin", "sh"], "a"), (["rootfs", "etc", "os-release"], "A"),
      (["rootfs", "manifest.json"], demoDataAB),
      (["rootfs", "a", "layer.tar"], "etc/os-release=A\nbin/sh=a"),
      (["rootfs", "b", "layer.tar"], "")]
    [(["rootfs", "bin", "sh"], "a"), (["rootfs", "etc", "os-release"], "A"),
      (["rootfs", "manifest.json"], demoDataAB),
      (["rootfs", "a", "layer.tar"], "etc/os-release=A\nbin/sh=a"),
      (["rootfs", "b", "layer.tar"], "")]
    [Event.unpack ["rootfs", "a", "layer.tar"] ["rootfs"] none] (.new "unexpected EOF")
    (by decide) (by decide) (by decide) (by decide) (by decide)).1.1, by decide⟩

set_option maxRecDepth 100000 in
/-- C5. With the empty variant, on an index page whose only stage3 link is a
quoted `.tar.bz2` file name for the architecture, `gentoo.getLatestBuild`
fails with "Failed to get match", while with a variant the link of the same
shape is found; and with two `.tar.xz` links on one line what it returns runs
from the first file name to the last. -/
theorem gentoo_getLatestBuild_misses_bz2 :
    (gentoo.getLatestBuild (demoSys "<a href=\"stage3-amd64-20200101.tar.bz2\">" true)
      "http://m/releases/amd64/autobuilds/current-stage3-amd64" "amd64" "" ⟨(), []⟩).1 =
      .error (.new "Failed to get match") ∧
    (gentoo.getLatestBuild (demoSys "<a href=\"stage3-amd64-musl-20200101.tar.bz2\">" true)
      "http://m/releases/amd64/autobuilds/current-stage3-amd64-musl" "amd64" "musl" ⟨(), []⟩).1 =
      .ok "stage3-amd64-musl-20200101.tar.bz2" ∧
    (gentoo.getLatestBuild
      (demoSys "<a href=\"stage3-amd64-1.tar.xz\">1</a> <a href=\"stage3-amd64-2.tar.xz\">" true)
      "http://m/releases/amd64/autobuilds/current-stage3-amd64" "amd64" "" ⟨(), []⟩).1 =
      .ok "stage3-amd64-1.tar.xz\">1</a> <a href=\"stage3-amd64-2.tar.xz" := by
  decide

/-- C10. On a tree whose manifest has one element with the layer
`l1/layer.tar` and no `Config`, `unpackLayers` calls `RemoveAll` on the rootfs
directory itself and leaves an empty tree. -/
theorem unpackLayers_removes_rootfs :
    demoUnmarshal demoDataNoConfig = .ok [⟨["l1/layer.tar"], ""⟩] ∧
    (fedora.unpackLayers (fsSys demoDecode demoUnmarshal) ["rootfs"]
      ⟨demoTreeNoConfig, []⟩).2.trace =
      [.readFile ["rootfs", "manifest.json"] (.ok (.ok demoDataNoConfig)),
        .unpack ["rootfs", "l1", "layer.tar"] ["rootfs"] none,
        .glob ["rootfs", "tmp"] (.ok []), .glob ["rootfs", "root"] (.ok []),
        .removeAll ["rootfs", "manifest.json"] none, .removeAll ["rootfs", "repositories"] none,
        .removeAll ["rootfs", "l1"] none, .removeAll ["rootfs"] none] ∧
    (fedora.unpackLayers (fsSys demoDecode demoUnmarshal) ["rootfs"]
      ⟨demoTreeNoConfig, []⟩).1 = .ok () ∧
    (fedora.unpackLayers (fsSys demoDecode demoUnmarshal) ["rootfs"]
      ⟨demoTreeNoConfig, []⟩).2.world = [] := by
  decide

end Sources
